import Mathlib

set_option autoImplicit false

/-!
# tpjg/config — verification development

A shallow embedding of `config.go` together with the parts of the Go standard
library it calls (`strconv`, `time.ParseDuration`, `reflect`, `flag`), followed by
theorems about `ReadStructFromEnv` and `ReadStructFromEnvOverrideWithArgs`.

Go strings are byte strings; they are modelled as lists of characters.  Every
byte the code inspects (`=`, `-`, digits, letters, `.`) is ASCII, so splitting and
comparing by character agrees with splitting and comparing by byte.

The struct behind the pointer is a list of fields; a pointer into it is the number of
a field.  A call ends in one of three ways (`Outcome`): it returns, it panics, or the
process exits (flag.ExitOnError).
-/

namespace Config

/-- A Go string. -/
abbrev GoString := List Char

/-! ## Platform parameters

Floating point arithmetic is not modelled.  The two places where the program depends
on it are taken as parameters, together with the width of `int` and `uint`. -/

/-- A float64 value, identified by its IEEE-754 bit pattern. -/
structure Float64 where
  bits : Nat
  deriving DecidableEq, Repr

/-- Errors of package strconv (`NumError.Err`). -/
inductive NumError where
  | ErrSyntax
  | ErrRange
  | ErrBase
  | ErrBitSize
  deriving DecidableEq, Repr

/-- What the program takes from the platform and from floating point arithmetic. -/
structure Platform where
  /-- Value of strconv.IntSize: the width of int and uint (32 or 64). -/
  IntSize : Nat
  /-- Function strconv.ParseFloat(s, 64): the value and the error it returns. -/
  ParseFloat : GoString → Float64 × Option NumError
  /-- In time.ParseDuration, `uint64(float64(f) * (float64(unit) / scale))` with
  `scale = 10 ^ k`. -/
  durationFrac : (f unit k : Nat) → Nat
  /-- The width of int is 32 or 64 bits. -/
  intSize_cases : IntSize = 32 ∨ IntSize = 64
  /-- Function strconv.ParseFloat returns 0 together with ErrSyntax. -/
  parseFloat_malformed : ∀ s, (ParseFloat s).2 = some .ErrSyntax → (ParseFloat s).1 = ⟨0⟩
  /-- Function strconv.ParseFloat reports ErrSyntax on the empty string. -/
  parseFloat_empty : (ParseFloat []).2 = some .ErrSyntax

/-! ## strconv -/

/-- Function strconv.lower: `c | ('x' - 'X')`. -/
def lower (c : Char) : Nat := c.toNat ||| 0x20

/-- Constant maxUint64 = 1<<64 - 1. -/
def maxUint64 : Nat := 2 ^ 64 - 1

/-- One step of the digit loop of strconv.ParseUint: the digit value of `c`, or none when
`c` is not a digit or letter. -/
def digitVal (c : Char) : Option Nat :=
  if '0'.toNat ≤ c.toNat ∧ c.toNat ≤ '9'.toNat then some (c.toNat - '0'.toNat)
  else if 'a'.toNat ≤ lower c ∧ lower c ≤ 'z'.toNat then some (lower c - 'a'.toNat + 10)
  else none

/-- Result of the digit loop of strconv.ParseUint. -/
inductive UintLoop where
  /-- the loop ran to the end: accumulated value, and whether an underscore was seen -/
  | done (n : Nat) (underscores : Bool)
  /-- the loop returned early with this value and error -/
  | ret (n : Nat) (err : NumError)
  deriving DecidableEq, Repr

/-- The loop `for _, c := range []byte(s)` of strconv.ParseUint. -/
def uintLoop (base0 : Bool) (base cutoff maxVal : Nat) :
    List Char → Nat → Bool → UintLoop
  | [], n, us => .done n us
  | c :: cs, n, us =>
    if c = '_' ∧ base0 = true then uintLoop base0 base cutoff maxVal cs n true
    else
      match digitVal c with
      | none => .ret 0 .ErrSyntax
      | some d =>
        if d ≥ base then .ret 0 .ErrSyntax
        else if n ≥ cutoff then .ret maxVal .ErrRange
        else
          let n1 := (n * base + d) % 2 ^ 64
          if n1 < n * base ∨ n1 > maxVal then .ret maxVal .ErrRange
          else uintLoop base0 base cutoff maxVal cs n1 us

/-- The scan of strconv.underscoreOK over the number proper; `saw` is the last
character class seen: `'0'` digit or base prefix, `'_'` underscore, `'^'` start,
`'!'` anything else. -/
def underscoreScan (hex : Bool) : List Char → Char → Bool
  | [], saw => saw ≠ '_'
  | c :: cs, saw =>
    if ('0'.toNat ≤ c.toNat ∧ c.toNat ≤ '9'.toNat) ∨
        (hex = true ∧ 'a'.toNat ≤ lower c ∧ lower c ≤ 'f'.toNat) then
      underscoreScan hex cs '0'
    else if c = '_' then
      if saw ≠ '0' then false else underscoreScan hex cs '_'
    else if saw = '_' then false
    else underscoreScan hex cs '!'

/-- Function strconv.underscoreOK. -/
def underscoreOK (s : GoString) : Bool :=
  let s := match s with
    | c :: cs => if c = '-' ∨ c = '+' then cs else s
    | [] => s
  match s with
  | c0 :: c1 :: rest =>
    if c0 = '0' ∧ (lower c1 = 'b'.toNat ∨ lower c1 = 'o'.toNat ∨ lower c1 = 'x'.toNat) then
      underscoreScan (lower c1 = 'x'.toNat) rest '0'
    else underscoreScan false s '^'
  | _ => underscoreScan false s '^'

/-- Base detection of strconv.ParseUint for `base == 0`: the base and the digits left. -/
def detectBase (s : GoString) : Nat × GoString :=
  match s with
  | '0' :: rest =>
    match rest with
    | c1 :: rest2 =>
      if s.length ≥ 3 ∧ lower c1 = 'b'.toNat then (2, rest2)
      else if s.length ≥ 3 ∧ lower c1 = 'o'.toNat then (8, rest2)
      else if s.length ≥ 3 ∧ lower c1 = 'x'.toNat then (16, rest2)
      else (8, rest)
    | [] => (8, rest)
  | _ => (10, s)

/-- Function strconv.ParseUint(s, base, bitSize): the value and the error returned. -/
def ParseUint (P : Platform) (s : GoString) (base bitSize : Nat) : Nat × Option NumError :=
  if s = [] then (0, some .ErrSyntax)
  else
    let base0 := decide (base = 0)
    if ¬ (base = 0 ∨ (2 ≤ base ∧ base ≤ 36)) then (0, some .ErrBase)
    else
      let bd : Nat × GoString := if base = 0 then detectBase s else (base, s)
      if bitSize > 64 then (0, some .ErrBitSize)
      else
        let bitSize := if bitSize = 0 then P.IntSize else bitSize
        let cutoff := maxUint64 / bd.1 + 1
        let maxVal := 2 ^ bitSize - 1
        match uintLoop base0 bd.1 cutoff maxVal bd.2 0 false with
        | .ret n e => (n, some e)
        | .done n us =>
          if us = true ∧ underscoreOK s = false then (0, some .ErrSyntax)
          else (n, none)

/-- Function strconv.ParseInt(s, base, bitSize): the value and the error returned. -/
def ParseInt (P : Platform) (s : GoString) (base bitSize : Nat) : Int × Option NumError :=
  match s with
  | [] => (0, some .ErrSyntax)
  | c :: cs =>
    let neg := decide (c = '-')
    let s1 := if c = '+' ∨ c = '-' then cs else s
    match ParseUint P s1 base bitSize with
    | (un, err) =>
      if err.isSome ∧ err ≠ some .ErrRange then (0, err)
      else
        let bitSize := if bitSize = 0 then P.IntSize else bitSize
        let cutoff : Nat := 2 ^ (bitSize - 1)
        if neg = false ∧ un ≥ cutoff then ((cutoff : Int) - 1, some .ErrRange)
        else if neg = true ∧ un > cutoff then (-(cutoff : Int), some .ErrRange)
        else if neg = true then (-(un : Int), none) else ((un : Int), none)

/-- Function strconv.ParseBool. -/
def ParseBool (s : GoString) : Bool × Option NumError :=
  if s = "1".toList ∨ s = "t".toList ∨ s = "T".toList ∨ s = "true".toList ∨
      s = "TRUE".toList ∨ s = "True".toList then (true, none)
  else if s = "0".toList ∨ s = "f".toList ∨ s = "F".toList ∨ s = "false".toList ∨
      s = "FALSE".toList ∨ s = "False".toList then (false, none)
  else (false, some .ErrSyntax)

/-! ## time.ParseDuration -/

/-- Function time.leadingInt: the leading `[0-9]*` of `s` as a number and the rest;
none stands for errLeadingInt (overflow). -/
def leadingInt : GoString → Nat → Option (Nat × GoString)
  | [], x => some (x, [])
  | c :: cs, x =>
    if c.toNat < '0'.toNat ∨ c.toNat > '9'.toNat then some (x, c :: cs)
    else if x > 2 ^ 63 / 10 then none
    else
      let x1 := x * 10 + c.toNat - '0'.toNat
      if x1 > 2 ^ 63 then none else leadingInt cs x1

/-- Function time.leadingFraction: the leading `[0-9]*` of `s` as a number `x`, the
number `k` of digits taken into it (the scale is `10 ^ k`), and the rest. -/
def leadingFraction : GoString → Nat → Nat → Bool → Nat × Nat × GoString
  | [], x, k, _ => (x, k, [])
  | c :: cs, x, k, overflow =>
    if c.toNat < '0'.toNat ∨ c.toNat > '9'.toNat then (x, k, c :: cs)
    else if overflow = true then leadingFraction cs x k overflow
    else if x > (2 ^ 63 - 1) / 10 then leadingFraction cs x k true
    else
      let y := x * 10 + c.toNat - '0'.toNat
      if y > 2 ^ 63 then leadingFraction cs x k true
      else leadingFraction cs y (k + 1) overflow

/-- The table time.unitMap, in nanoseconds. -/
def unitMap (u : GoString) : Option Nat :=
  if u = "ns".toList then some 1
  else if u = "us".toList then some 1000
  else if u = "µs".toList then some 1000
  else if u = "μs".toList then some 1000
  else if u = "ms".toList then some 1000000
  else if u = "s".toList then some 1000000000
  else if u = "m".toList then some 60000000000
  else if u = "h".toList then some 3600000000000
  else none

/-- Whether a byte ends a unit name in time.ParseDuration: `.` or a digit. -/
def unitStop (c : Char) : Bool :=
  c = '.' ∨ ('0'.toNat ≤ c.toNat ∧ c.toNat ≤ '9'.toNat)

/-- The step `Consume (\.[0-9]*)?` of time.ParseDuration on the text `s1` left after the
integer: the fraction `f`, the number `k` of its digits (the scale is `10 ^ k`), the
text left, and whether digits were consumed after the period. -/
def fractionPart (s1 : GoString) : Nat × Nat × GoString × Bool :=
  match s1 with
  | '.' :: s2 =>
    let r := leadingFraction s2 0 0 false
    (r.1, r.2.1, r.2.2, decide (s2.length ≠ r.2.2.length))
  | _ => (0, 0, s1, false)

/-- One round of the loop `for s != ""` of time.ParseDuration on the text `s = c :: cs`
left, with accumulator `d`: the text left after the round and the new accumulator; none
is the error return. -/
def durationRound (P : Platform) (c : Char) (cs : GoString) (d : Nat) :
    Option (GoString × Nat) :=
  let s := c :: cs
  if ¬ (c = '.' ∨ ('0'.toNat ≤ c.toNat ∧ c.toNat ≤ '9'.toNat)) then none
  else
    match leadingInt s 0 with
    | none => none
    | some (v, s1) =>
      let pre := decide (s.length ≠ s1.length)
      let fr := fractionPart s1
      let f := fr.1
      let k := fr.2.1
      let s3 := fr.2.2.1
      let post := fr.2.2.2
      if pre = false ∧ post = false then none
      else
        let u := s3.takeWhile (fun c => !unitStop c)
        let s4 := s3.dropWhile (fun c => !unitStop c)
        if u = [] then none
        else
          match unitMap u with
          | none => none
          | some unit =>
            if v > 2 ^ 63 / unit then none
            else
              let v1 := v * unit
              let v2 := if f > 0 then (v1 + P.durationFrac f unit k) % 2 ^ 64 else v1
              if f > 0 ∧ v2 > 2 ^ 63 then none
              else
                let d1 := (d + v2) % 2 ^ 64
                if d1 > 2 ^ 63 then none
                else some (s4, d1)

/-- The loop `for s != ""` of time.ParseDuration with accumulator `d`; none is the
error return.  Every round consumes at least the unit, so `fuel = len(s)` rounds
are enough. -/
def durationLoop (P : Platform) : Nat → GoString → Nat → Option Nat
  | _, [], d => some d
  | 0, _ :: _, _ => none
  | fuel + 1, c :: cs, d =>
    match durationRound P c cs d with
    | none => none
    | some (s4, d1) => durationLoop P fuel s4 d1

/-- Function time.ParseDuration: the Duration (in nanoseconds) and whether an error
is returned. -/
def ParseDuration (P : Platform) (s : GoString) : Int × Bool :=
  let neg := match s with
    | c :: _ => decide (c = '-')
    | [] => false
  let s1 := match s with
    | c :: cs => if c = '-' ∨ c = '+' then cs else s
    | [] => s
  if s1 = "0".toList then (0, false)
  else if s1 = [] then (0, true)
  else
    match durationLoop P s1.length s1 0 with
    | none => (0, true)
    | some d =>
      if neg = true then (-(d : Int), false)
      else if d > 2 ^ 63 - 1 then (0, true)
      else ((d : Int), false)

/-! ## Values, struct fields and memory -/

/-- The eight types of the type switch in setupFlagForField. -/
inductive ScalarType where
  | Bool
  | Duration
  | Float64
  | Int
  | Int64
  | String
  | Uint
  | Uint64
  deriving DecidableEq, Repr

/-- A value of one of the eight types. -/
inductive Scalar where
  | bool (b : Bool)
  | duration (d : Int)
  | float64 (x : Float64)
  | int (i : Int)
  | int64 (i : Int)
  | string (s : GoString)
  | uint (n : Nat)
  | uint64 (n : Nat)
  deriving DecidableEq, Repr

/-- The type of a scalar value. -/
def Scalar.type : Scalar → ScalarType
  | .bool _ => .Bool
  | .duration _ => .Duration
  | .float64 _ => .Float64
  | .int _ => .Int
  | .int64 _ => .Int64
  | .string _ => .String
  | .uint _ => .Uint
  | .uint64 _ => .Uint64

/-- The zero value of each of the eight types. -/
def zeroValue : ScalarType → Scalar
  | .Bool => .bool false
  | .Duration => .duration 0
  | .Float64 => .float64 ⟨0⟩
  | .Int => .int 0
  | .Int64 => .int64 0
  | .String => .string []
  | .Uint => .uint 0
  | .Uint64 => .uint64 0

/-- A value stored in an interface. -/
inductive Dyn where
  /-- a value whose dynamic type is one of the eight types -/
  | scalar (v : Scalar)
  /-- a value of any other dynamic type, identified by type name and representation -/
  | other (typeName : GoString) (repr : Nat)
  deriving DecidableEq, Repr

/-- The storage of a struct field. -/
inductive Content where
  /-- a field declared with one of the eight types -/
  | scalar (v : Scalar)
  /-- a field declared with any other non-interface type (a named type such as
  `type MyInt int`, a pointer, a slice, a nested struct, ...) -/
  | other (typeName : GoString) (repr : Nat)
  /-- a field declared with an interface type: nil, or holding a dynamic value -/
  | iface (dyn : Option Dyn)
  /-- the storage of an interface-typed field after a scalar was written over it
  through a pointer of the scalar's type -/
  | overwritten (v : Scalar)
  deriving DecidableEq, Repr

/-- A struct tag, as the key/value pairs that `Tag.Get` reads. -/
abbrev StructTag := List (GoString × GoString)

/-- Method reflect.StructTag.Get: the value of `key`, or the empty string. -/
def StructTag.Get (tag : StructTag) (key : GoString) : GoString :=
  match tag.lookup key with
  | some v => v
  | none => []

/-- The parts of reflect.StructField that the program reads. -/
structure StructField where
  Name : GoString
  /-- empty for exported fields -/
  PkgPath : GoString
  Tag : StructTag
  deriving DecidableEq, Repr

/-- A field of the struct: its declaration and its storage. -/
structure Field where
  sf : StructField
  content : Content
  deriving DecidableEq, Repr

/-- A write `*(*T)(p) = v` at the storage of a field. -/
def Content.store (c : Content) (v : Scalar) : Content :=
  match c with
  | .scalar _ => .scalar v
  | .other t r => .other t r
  | .iface _ => .overwritten v
  | .overwritten _ => .overwritten v

/-- A write `*p = v` where `p` is the address of field number `p` of the struct. -/
def storeAt : List Field → Nat → Scalar → List Field
  | [], _, _ => []
  | f :: fs, 0, v => { f with content := f.content.store v } :: fs
  | f :: fs, p + 1, v => f :: storeAt fs p v

/-! ## reflect -/

/-- Kinds of values other than pointers and structs. -/
inductive BasicKind where
  | Bool
  | Int
  | Int64
  | Uint
  | Uint64
  | Float64
  | String
  | Slice
  | Map
  | Func
  | Chan
  deriving DecidableEq, Repr

/-- Type reflect.Kind. -/
inductive Kind where
  | Invalid
  | Basic (k : BasicKind)
  | Ptr
  | Struct
  deriving DecidableEq, Repr

/-- A value of the calling program. -/
inductive GoVal where
  | basic (k : BasicKind) (repr : Nat)
  | struct (fields : List Field)
  | nilPtr
  | ptr (target : GoVal)
  deriving DecidableEq, Repr

/-- Type reflect.Value (itself declared as a struct in package reflect). -/
inductive RValue where
  /-- the zero Value -/
  | zero
  /-- a Value holding a value of the calling program -/
  | ofVal (v : GoVal)
  /-- a Value holding a reflect.Value -/
  | ofReflectValue
  deriving DecidableEq, Repr

/-- An operand of type `interface{}`. -/
inductive Any where
  | nil
  | val (v : GoVal)
  /-- a reflect.Value converted to `interface{}` -/
  | reflectValue (rv : RValue)
  deriving DecidableEq, Repr

/-- Function reflect.ValueOf. -/
def ValueOf : Any → RValue
  | .nil => .zero
  | .val v => .ofVal v
  | .reflectValue _ => .ofReflectValue

/-- Method reflect.Value.Kind. -/
def RValue.Kind : RValue → Kind
  | .zero => .Invalid
  | .ofVal (.basic k _) => .Basic k
  | .ofVal (.struct _) => .Struct
  | .ofVal .nilPtr => .Ptr
  | .ofVal (.ptr _) => .Ptr
  | .ofReflectValue => .Struct

/-- Method reflect.Value.IsNil, on a Value of kind Ptr. -/
def RValue.IsNil : RValue → Bool
  | .ofVal .nilPtr => true
  | _ => false

/-- Method reflect.Value.IsValid. -/
def RValue.IsValid : RValue → Bool
  | .zero => false
  | _ => true

/-- Method reflect.Value.Elem, on a Value of kind Ptr. -/
def RValue.Elem : RValue → RValue
  | .ofVal (.ptr t) => .ofVal t
  | _ => .zero

/-! ## flag -/

/-- A registered flag: its name, the address its Value writes to (the number of the
struct field) and the type of that Value. -/
structure Flag where
  Name : GoString
  ptr : Nat
  type : ScalarType
  deriving DecidableEq, Repr

/-- Type flag.FlagSet: the map `formal`, in order of registration. -/
structure FlagSet where
  formal : List Flag
  deriving DecidableEq, Repr

/-- The panics the program can raise. -/
inductive Panic where
  /-- flag.Var: flag begins with - -/
  | flagBeginsWithMinus (name : GoString)
  /-- flag.Var: flag contains = -/
  | flagContainsEq (name : GoString)
  /-- flag.Var: flag redefined -/
  | flagRedefined (name : GoString)
  /-- slice bounds out of range -/
  | sliceBounds
  /-- index out of range -/
  | indexOutOfRange
  /-- reflect: call of reflect.Value.NumField on a Value that is not a struct -/
  | reflectNumField
  deriving DecidableEq, Repr

/-- Function flag.NewFlagSet. -/
def NewFlagSet : FlagSet := ⟨[]⟩

/-- Method flag.FlagSet.Lookup. -/
def FlagSet.Lookup (fs : FlagSet) (name : GoString) : Option Flag :=
  fs.formal.find? (fun fl => decide (fl.Name = name))

/-- Method flag.FlagSet.Var (Go 1.17 and later): it panics on a name that begins with
`-` or holds an `=`, and on a name that is already registered. -/
def FlagSet.Var (fs : FlagSet) (fl : Flag) : Except Panic FlagSet :=
  if fl.Name.head? = some '-' then .error (.flagBeginsWithMinus fl.Name)
  else if '=' ∈ fl.Name then .error (.flagContainsEq fl.Name)
  else if (fs.Lookup fl.Name).isSome then .error (.flagRedefined fl.Name)
  else .ok ⟨fs.formal ++ [fl]⟩

/-- Method `Set` of the flag Values (boolValue, durationValue, float64Value, intValue,
int64Value, stringValue, uintValue, uint64Value): the value assigned to the target and
whether an error is returned. -/
def flagSet (P : Platform) (t : ScalarType) (s : GoString) : Scalar × Bool :=
  match t with
  | .Bool => (.bool (ParseBool s).1, (ParseBool s).2.isSome)
  | .Duration => (.duration (ParseDuration P s).1, (ParseDuration P s).2)
  | .Float64 => (.float64 (P.ParseFloat s).1, (P.ParseFloat s).2.isSome)
  | .Int => (.int (ParseInt P s 0 P.IntSize).1, (ParseInt P s 0 P.IntSize).2.isSome)
  | .Int64 => (.int64 (ParseInt P s 0 64).1, (ParseInt P s 0 64).2.isSome)
  | .String => (.string s, false)
  | .Uint => (.uint (ParseUint P s 0 P.IntSize).1, (ParseUint P s 0 P.IntSize).2.isSome)
  | .Uint64 => (.uint64 (ParseUint P s 0 64).1, (ParseUint P s 0 64).2.isSome)

/-- What one call of flag.FlagSet.parseOne does. -/
inductive ParseOne where
  /-- returns `true, nil`: a flag was seen; the memory and the arguments left -/
  | seen (mem : List Field) (args : List GoString)
  /-- returns `false, nil`: no flag left to parse -/
  | stop (mem : List Field)
  /-- returns `false, ErrHelp` -/
  | help
  /-- returns `false, err` for any other error -/
  | fail
  deriving DecidableEq, Repr

/-- Whether a byte differs from `=`. -/
def notEq (x : Char) : Bool := x != '='

/-- The loop of parseOne that looks for `=` from index 1 of `name`: the name and,
when an `=` was found, the value after it. -/
def splitNameValue (name : GoString) : GoString × Option GoString :=
  match name with
  | [] => ([], none)
  | c :: cs =>
    match cs.dropWhile notEq with
    | [] => (c :: cs, none)
    | _ :: value => (c :: cs.takeWhile notEq, some value)

/-- Method flag.FlagSet.parseOne, on the arguments left `args`. -/
def parseOne (P : Platform) (fs : FlagSet) (mem : List Field) (args : List GoString) :
    ParseOne :=
  match args with
  | [] => .stop mem
  | s :: rest =>
    match s with
    | [] => .stop mem
    | [_] => .stop mem
    | s0 :: s1 :: s2 =>
      if s0 ≠ '-' then .stop mem
      else if s1 = '-' ∧ s2 = [] then .stop mem
      else
        let name0 := if s1 = '-' then s2 else s1 :: s2
        if name0 = [] ∨ name0.head? = some '-' ∨ name0.head? = some '=' then .fail
        else
          let nv := splitNameValue name0
          match fs.Lookup nv.1 with
          | none =>
            if nv.1 = "help".toList ∨ nv.1 = "h".toList then .help else .fail
          | some fl =>
            if fl.type = .Bool then
              let r := flagSet P .Bool (match nv.2 with | some value => value | none => "true".toList)
              if r.2 = true then .fail else .seen (storeAt mem fl.ptr r.1) rest
            else
              match nv.2, rest with
              | some value, _ =>
                let r := flagSet P fl.type value
                if r.2 = true then .fail else .seen (storeAt mem fl.ptr r.1) rest
              | none, value :: rest1 =>
                let r := flagSet P fl.type value
                if r.2 = true then .fail else .seen (storeAt mem fl.ptr r.1) rest1
              | none, [] => .fail

/-- The end of the process in Parse with error handling ExitOnError. -/
inductive Exit where
  /-- os.Exit(code) -/
  | exited (code : Nat)
  deriving DecidableEq, Repr

/-- The loop of flag.FlagSet.Parse with error handling ExitOnError: the memory when
Parse returns, or the exit code.  Every round that continues consumes an argument, so
`fuel = len(arguments) + 1` rounds always reach a return or an exit. -/
def parseLoop (P : Platform) (fs : FlagSet) :
    Nat → List Field → List GoString → Except Exit (List Field)
  | 0, mem, _ => .ok mem
  | fuel + 1, mem, args =>
    match parseOne P fs mem args with
    | .seen mem1 rest => parseLoop P fs fuel mem1 rest
    | .stop mem1 => .ok mem1
    | .help => .error (.exited 0)
    | .fail => .error (.exited 2)

/-- Method flag.FlagSet.Parse with error handling ExitOnError. -/
def FlagSet.Parse (P : Platform) (fs : FlagSet) (mem : List Field)
    (arguments : List GoString) : Except Exit (List Field) :=
  parseLoop P fs (arguments.length + 1) mem arguments

/-! ## config.go -/

/-- The error values a call can return. -/
inductive Error where
  /-- ErrNotPointerToStruct = errors.New("Expected pointer to struct parameter") -/
  | ErrNotPointerToStruct
  deriving DecidableEq, Repr

/-- How a call of an entry point ends. -/
inductive Outcome where
  /-- the call returns `err`; `v` is the argument with the memory it points to -/
  | returned (err : Option Error) (v : Any)
  /-- the call panics; `v` is the argument with the memory it points to then -/
  | panicked (p : Panic) (v : Any)
  /-- the process exits with this code -/
  | exited (code : Nat)
  deriving DecidableEq, Repr

/-- isPointerToStruct only returns true if the supplied interface{} is a pointer to a
struct (so its comment says).  The last two lines apply reflect.ValueOf to the
reflect.Value `rv.Elem()`. -/
def isPointerToStruct (v : Any) : Bool :=
  let rv := ValueOf v
  if rv.Kind ≠ .Ptr ∨ rv.IsNil = true then false
  else if rv.IsValid = false then false
  else
    let rvp := ValueOf (.reflectValue rv.Elem)
    decide (rvp.Kind = .Struct)

/-- Function getFlagNameAndDefault. -/
def getFlagNameAndDefault (sf : StructField) : GoString × GoString :=
  let name := sf.Tag.Get "flag".toList
  let name := if name = [] then sf.Name else name
  let val := sf.Tag.Get "default".toList
  (name, val)

/-- Method reflect.Value.CanSet on a field of a struct reached through a pointer: the
field is exported. -/
def CanSet (f : Field) : Bool := decide (f.sf.PkgPath = [])

/-- The dynamic type that the type switch `switch (rv.Interface()).(type)` sees, when
it is one of the eight.  For a field of interface type, `rv.Interface()` is the value
stored in the interface. -/
def switchType (c : Content) : Option ScalarType :=
  match c with
  | .scalar v => some v.type
  | .other _ _ => none
  | .iface (some (.scalar v)) => some v.type
  | .iface (some (.other _ _)) => none
  | .iface none => none
  | .overwritten _ => none

/-- Conversion `int(value)` of an int64. -/
def toInt (P : Platform) (value : Int) : Int := Int.bmod value (2 ^ P.IntSize)

/-- Conversion `uint(value)` of a uint64. -/
def toUint (P : Platform) (value : Nat) : Nat := value % 2 ^ P.IntSize

/-- The default computed by setupFlagForBool ... setupFlagForUint64 from the text
`val`: the result of the parser, its error dropped. -/
def defaultValue (P : Platform) (t : ScalarType) (val : GoString) : Scalar :=
  match t with
  | .Bool => .bool (ParseBool val).1
  | .Duration => .duration (ParseDuration P val).1
  | .Float64 => .float64 (P.ParseFloat val).1
  | .Int => .int (toInt P (ParseInt P val 0 64).1)
  | .Int64 => .int64 (ParseInt P val 0 64).1
  | .String => .string val
  | .Uint => .uint (toUint P (ParseUint P val 0 64).1)
  | .Uint64 => .uint64 (ParseUint P val 0 64).1

/-- Methods setupFlagForBool ... setupFlagForUint64 followed by fs.BoolVar ...
fs.Uint64Var: the default is written to `*p`, then the flag is registered by Var.  A
panic of Var is returned with the field as it is then. -/
def setupFlagFor (P : Platform) (fs : FlagSet) (p : Nat) (f : Field) (t : ScalarType)
    (name val : GoString) : Except (Panic × Field) (FlagSet × Field) :=
  let value := defaultValue P t val
  let f1 : Field := { f with content := f.content.store value }
  match fs.Var ⟨name, p, t⟩ with
  | .error e => .error (e, f1)
  | .ok fs1 => .ok (fs1, f1)

/-- Method setupFlagForField, for field number `p`. -/
def setupFlagForField (P : Platform) (fs : FlagSet) (p : Nat) (f : Field) :
    Except (Panic × Field) (FlagSet × Field) :=
  if CanSet f = false then .ok (fs, f)
  else
    let nv := getFlagNameAndDefault f.sf
    match switchType f.content with
    | some t => setupFlagFor P fs p f t nv.1 nv.2
    | none => .ok (fs, f)

/-- The loop of setupFlagsForStruct over the fields, from field number `i` on.  A
panic is returned with the fields as they are then. -/
def setupLoop (P : Platform) :
    FlagSet → Nat → List Field → Except (Panic × List Field) (FlagSet × List Field)
  | fs, _, [] => .ok (fs, [])
  | fs, i, f :: rest =>
    match setupFlagForField P fs i f with
    | .error (e, f1) => .error (e, f1 :: rest)
    | .ok (fs1, f1) =>
      match setupLoop P fs1 (i + 1) rest with
      | .error (e, rest1) => .error (e, f1 :: rest1)
      | .ok (fs2, rest1) => .ok (fs2, f1 :: rest1)

/-- Method setupFlagsForStruct: `reflect.ValueOf(v).Elem()`, then the loop over
`rv.NumField()` fields.  A panic is returned with the argument as it is then. -/
def setupFlagsForStruct (P : Platform) (fs : FlagSet) (v : Any) :
    Except (Panic × Any) (FlagSet × List Field) :=
  match (ValueOf v).Elem with
  | .ofVal (.struct fields) =>
    match setupLoop P fs 0 fields with
    | .error (e, mem) => .error (e, .val (.ptr (.struct mem)))
    | .ok r => .ok r
  | _ => .error (.reflectNumField, v)

/-- Function strings.Index(value, "="): none stands for -1. -/
def indexEq : GoString → Option Nat
  | [] => none
  | c :: cs => if c = '=' then some 0 else (indexEq cs).map (· + 1)

/-- Method getArgsFromEnv over the environment `env` (the result of os.Environ());
none stands for the panic of `value[:-1]`. -/
def getArgsFromEnv (fs : FlagSet) : List GoString → Option (List GoString)
  | [] => some []
  | value :: env =>
    match indexEq value with
    | none => none
    | some i =>
      match getArgsFromEnv fs env with
      | none => none
      | some args =>
        if (fs.Lookup (value.take i)).isNone then some args
        else some (('-' :: value) :: args)

/-- What an entry point does once the flags are set up and the arguments assembled. -/
def finish (r : Except Exit (List Field)) : Outcome :=
  match r with
  | .error (.exited code) => .exited code
  | .ok mem => .returned none (.val (.ptr (.struct mem)))

/-- Function ReadStructFromEnv, with `env` the result of os.Environ(). -/
def ReadStructFromEnv (P : Platform) (env : List GoString) (v : Any) : Outcome :=
  if isPointerToStruct v = false then .returned (some .ErrNotPointerToStruct) v
  else
    match setupFlagsForStruct P NewFlagSet v with
    | .error (e, v1) => .panicked e v1
    | .ok (tmpfs, mem) =>
      match getArgsFromEnv tmpfs env with
      | none => .panicked .sliceBounds (.val (.ptr (.struct mem)))
      | some args => finish (tmpfs.Parse P mem args)

/-- The literal "-test." of ReadStructFromEnvOverrideWithArgs. -/
def testMark : GoString := "-test.".toList

/-- The loop of ReadStructFromEnvOverrideWithArgs over os.Args[1:]. -/
def appendArgs (args : List GoString) : List GoString → List GoString
  | [] => args
  | arg :: rest =>
    if testMark.isPrefixOf arg = false then appendArgs (args ++ [arg]) rest
    else appendArgs args rest

/-- Function ReadStructFromEnvOverrideWithArgs, with `env` the result of os.Environ()
and `osArgs` the value of os.Args. -/
def ReadStructFromEnvOverrideWithArgs (P : Platform) (env osArgs : List GoString)
    (v : Any) : Outcome :=
  if isPointerToStruct v = false then .returned (some .ErrNotPointerToStruct) v
  else
    match osArgs with
    | [] => .panicked .indexOutOfRange v
    | _ :: osArgs1 =>
      match setupFlagsForStruct P NewFlagSet v with
      | .error (e, v1) => .panicked e v1
      | .ok (tmpfs, mem) =>
        match getArgsFromEnv tmpfs env with
        | none => .panicked .sliceBounds (.val (.ptr (.struct mem)))
        | some args => finish (tmpfs.Parse P mem (appendArgs args osArgs1))

/-! ## Vocabulary of the specification -/

/-- A non-nil pointer to a struct with these fields, as an argument. -/
def ptrToStruct (fields : List Field) : Any := .val (.ptr (.struct fields))

/-- The key of an environment entry `K=V`: the text before the first `=`. -/
def envKey (e : GoString) : GoString := e.takeWhile notEq

/-- The value of an environment entry `K=V`: the text after the first `=`. -/
def envValue (e : GoString) : GoString := (e.dropWhile notEq).drop 1

/-- The external name of a field: its flag tag when present and not empty, else its
declared name. -/
def externalName (f : Field) : GoString := (getFlagNameAndDefault f.sf).1

/-- The text of the default tag of a field, empty when there is none. -/
def defaultLiteral (f : Field) : GoString := (getFlagNameAndDefault f.sf).2

/-- An eligible field: exported and declared with one of the eight types. -/
def eligible (f : Field) : Bool :=
  match f.content with
  | .scalar _ => decide (f.sf.PkgPath = [])
  | _ => false

/-- The fields for which setupFlagForField registers a flag, with the type of the flag. -/
def registers (f : Field) : Option ScalarType :=
  if CanSet f = true then switchType f.content else none

/-- The flags that setupFlagsForStruct registers for the fields numbered from `i`. -/
def regsFrom : Nat → List Field → List Flag
  | _, [] => []
  | i, f :: rest =>
    match registers f with
    | some t => ⟨externalName f, i, t⟩ :: regsFrom (i + 1) rest
    | none => regsFrom (i + 1) rest

/-- The field after setupFlagForField: the default is written to a field that
registers a flag. -/
def afterSetup (P : Platform) (f : Field) : Field :=
  match registers f with
  | some t => { f with content := f.content.store (defaultValue P t (defaultLiteral f)) }
  | none => f

/-- The value of the last entry of the feed whose key is `K`. -/
def lastValue (K : GoString) (feed : List GoString) : Option GoString :=
  ((feed.filter (fun e => decide (envKey e = K))).getLast?).map envValue

/-- The field after a call that returns: a field that registers a flag holds the
value of the last entry of the feed that names it, or its default. -/
def resolve (P : Platform) (feed : List GoString) (f : Field) : Field :=
  match registers f with
  | some t =>
    let value := match lastValue (externalName f) feed with
      | some s => (flagSet P t s).1
      | none => defaultValue P t (defaultLiteral f)
    { f with content := f.content.store value }
  | none => f

/-- The effect on memory of one entry `K=V` of the feed whose token `-K=V` parseOne
accepts; none when parseOne reports an error. -/
def entryStep (P : Platform) (fs : FlagSet) (mem : List Field) (e : GoString) :
    Option (List Field) :=
  if envKey e = [] then none
  else
    match fs.Lookup (envKey e) with
    | none => none
    | some fl =>
      if (flagSet P fl.type (envValue e)).2 = true then none
      else some (storeAt mem fl.ptr (flagSet P fl.type (envValue e)).1)

/-- The effect on memory of a feed of entries, in order. -/
def runEntries (P : Platform) (fs : FlagSet) : List Field → List GoString → Option (List Field)
  | mem, [] => some mem
  | mem, e :: feed =>
    match entryStep P fs mem e with
    | none => none
    | some mem1 => runEntries P fs mem1 feed

/-- An environment binds the name `K` to the literal `s`: it holds the entry `K=s`
and no other entry with key `K`. -/
def Binds (env : List GoString) (K s : GoString) : Prop :=
  (K ++ '=' :: s) ∈ env ∧ '=' ∉ K ∧ ∀ e ∈ env, envKey e = K → e = K ++ '=' :: s

/-- An entry of a feed that parseOne reads as a flag `-K=V` with `K` its key: it holds
an `=` and its key does not begin with `-`. -/
def Shaped (e : GoString) : Prop := '=' ∈ e ∧ (envKey e).head? ≠ some '-'

/-- The entries of the environment whose key is the name of a registered flag. -/
def envFeed (fs : FlagSet) (env : List GoString) : List GoString :=
  env.filter (fun e => (fs.Lookup (envKey e)).isSome)

/-- The arguments of os.Args[1:] that do not begin with `-test.`. -/
def passedArgs (osArgs1 : List GoString) : List GoString :=
  osArgs1.filter (fun a => !testMark.isPrefixOf a)

/-- An entry that parseOne accepts: its key is the name of a flag and its value is a
valid literal for the type of that flag. -/
def Accepted (P : Platform) (fs : FlagSet) (e : GoString) : Prop :=
  envKey e ≠ [] ∧ ∃ fl, fs.Lookup (envKey e) = some fl ∧
    (flagSet P fl.type (envValue e)).2 = false

/-- The default text of a field of type `t` is malformed: the parser of the type reports
a syntax error (for bool and duration, which report no other kind: an error). -/
def SyntaxFailure (P : Platform) (t : ScalarType) (val : GoString) : Prop :=
  match t with
  | .Bool => (ParseBool val).2 ≠ none
  | .Duration => (ParseDuration P val).2 = true
  | .Float64 => (P.ParseFloat val).2 = some .ErrSyntax
  | .Int => (ParseInt P val 0 64).2 = some .ErrSyntax
  | .Int64 => (ParseInt P val 0 64).2 = some .ErrSyntax
  | .String => False
  | .Uint => (ParseUint P val 0 64).2 = some .ErrSyntax
  | .Uint64 => (ParseUint P val 0 64).2 = some .ErrSyntax

/-- A name that flag.Var accepts: it does not begin with `-` and holds no `=`. -/
def GoodName (n : GoString) : Prop := n.head? ≠ some '-' ∧ '=' ∉ n

/-- The flag set after setup of `fields`: the flags of the registering fields, under
pairwise distinct names. -/
def Linked (fs : FlagSet) (fields : List Field) : Prop :=
  fs.formal = regsFrom 0 fields ∧ (fs.formal.map Flag.Name).Nodup

/-- The text `s` is a valid literal for the type of the eligible field `f`: the method
Set of the flag Value of that type returns no error on it. -/
def validFor (P : Platform) (f : Field) (s : GoString) : Bool :=
  match f.content with
  | .scalar v0 => !(flagSet P v0.type s).2
  | _ => false

/-- The preconditions of a call of ReadStructFromEnv on a pointer to a struct with these
fields, under this environment. -/
structure Wellformed (P : Platform) (env : List GoString) (fields : List Field) : Prop where
  /-- no exported field of interface type holds a value of one of the eight types -/
  noIfaceScalar : ∀ f ∈ fields, (registers f).isSome = true → eligible f = true
  /-- field names are Go identifiers: not empty -/
  named : ∀ f ∈ fields, f.sf.Name ≠ []
  /-- the external names of the eligible fields do not begin with `-` and hold no `=` -/
  goodNames : ∀ f ∈ fields, eligible f = true → GoodName (externalName f)
  /-- the external names of the eligible fields are pairwise distinct -/
  distinct : ((fields.filter eligible).map externalName).Nodup
  /-- every entry of the environment holds an `=` -/
  envEq : ∀ e ∈ env, '=' ∈ e
  /-- every value bound to the external name of an eligible field is a valid literal
  for the type of the field -/
  valid : ∀ e ∈ env, ∀ f ∈ fields, eligible f = true → envKey e = externalName f →
    validFor P f (envValue e) = true

instance (n : GoString) : Decidable (GoodName n) := by
  unfold GoodName; infer_instance

instance (e : GoString) : Decidable (Shaped e) := by
  unfold Shaped; infer_instance

instance (env : List GoString) (K s : GoString) : Decidable (Binds env K s) := by
  unfold Binds; infer_instance

/-- What parseOne reads from the arguments when it reads a flag: the flag as the entry
`K=V` (`K` the name of a registered flag; `V` the text after `=`, or the next argument
for a flag that is not a bool flag, or `true` for a bool flag without `=`), and the
arguments left.  The forms are `-K=V`, `--K=V`, `-K V`, `--K V` and, for a bool flag,
`-K` and `--K`. -/
def argEntry (fs : FlagSet) (args : List GoString) : Option (GoString × List GoString) :=
  match args with
  | [] => none
  | s :: rest =>
    match s with
    | [] => none
    | [_] => none
    | s0 :: s1 :: s2 =>
      if s0 ≠ '-' then none
      else if s1 = '-' ∧ s2 = [] then none
      else
        let name0 := if s1 = '-' then s2 else s1 :: s2
        if name0 = [] ∨ name0.head? = some '-' ∨ name0.head? = some '=' then none
        else
          let nv := splitNameValue name0
          match fs.Lookup nv.1 with
          | none => none
          | some fl =>
            match nv.2 with
            | some value => some (nv.1 ++ '=' :: value, rest)
            | none =>
              if fl.type = .Bool then some (nv.1 ++ '=' :: "true".toList, rest)
              else
                match rest with
                | value :: rest1 => some (nv.1 ++ '=' :: value, rest1)
                | [] => none

/-- Arguments at which parseOne returns `false, nil`: there is none left, or the first
is not a flag (shorter than two bytes, or not beginning with `-`), or it is `--`. -/
def endsFlags (args : List GoString) : Bool :=
  match args with
  | [] => true
  | s :: _ =>
    match s with
    | s0 :: s1 :: s2 => decide (s0 ≠ '-') || decide (s1 = '-' ∧ s2 = [])
    | _ => true

/-- The flags that Parse reads from the arguments, as entries `K=V` in order, up to the
first argument that parseOne does not read as a registered flag, and the arguments left
from there on.  Every flag takes at least one argument, so `fuel = len(args)` rounds are
enough. -/
def readArgs (fs : FlagSet) : Nat → List GoString → List GoString × List GoString
  | 0, args => ([], args)
  | fuel + 1, args =>
    match argEntry fs args with
    | none => ([], args)
    | some (e, rest) => (e :: (readArgs fs fuel rest).1, (readArgs fs fuel rest).2)

/-- The flags that Parse reads from the arguments, as entries `K=V` in order. -/
def argFeed (fs : FlagSet) (args : List GoString) : List GoString :=
  (readArgs fs args.length args).1

/-- The arguments left where Parse stops reading flags. -/
def argRest (fs : FlagSet) (args : List GoString) : List GoString :=
  (readArgs fs args.length args).2

/-- Whether parseOne accepts the entry: its key is the name of a flag and its value is
a valid literal for the type of that flag. -/
def accepts (P : Platform) (fs : FlagSet) (e : GoString) : Bool :=
  match fs.Lookup (envKey e) with
  | some fl => decide (envKey e ≠ []) && !(flagSet P fl.type (envValue e)).2
  | none => false

/-- The preconditions on the arguments os.Args[1:] of ReadStructFromEnvOverrideWithArgs:
every flag that Parse reads from the arguments that do not begin with `-test.` carries
a valid literal for its type, and Parse stops reading at the end of the arguments, at
an argument that is not a flag, or at `--`. -/
def WellformedArgs (P : Platform) (fields : List Field) (osArgs1 : List GoString) : Prop :=
  (∀ e ∈ argFeed ⟨regsFrom 0 fields⟩ (passedArgs osArgs1),
    accepts P ⟨regsFrom 0 fields⟩ e = true) ∧
  endsFlags (argRest ⟨regsFrom 0 fields⟩ (passedArgs osArgs1)) = true

instance (P : Platform) (fields : List Field) (osArgs1 : List GoString) :
    Decidable (WellformedArgs P fields osArgs1) := by
  unfold WellformedArgs; infer_instance

/-! ## Inputs for evaluation -/

/-- A 64-bit platform for the evaluations below.  None of them parses a float: its
ParseFloat reports a syntax error on every text; the fraction of a duration is
truncated. -/
def amd64 : Platform where
  IntSize := 64
  ParseFloat := fun _ => (⟨0⟩, some .ErrSyntax)
  durationFrac := fun f unit k => f * unit / 10 ^ k
  intSize_cases := Or.inr rfl
  parseFloat_malformed := fun _ _ => rfl
  parseFloat_empty := rfl

/-- An exported field with a flag tag and a default tag; an empty text stands for an
absent tag. -/
def exportedField (name flagTag defaultTag : String) (c : Content) : Field :=
  ⟨⟨name.toList, [],
    (if flagTag = "" then [] else [("flag".toList, flagTag.toList)]) ++
    (if defaultTag = "" then [] else [("default".toList, defaultTag.toList)])⟩, c⟩

/-! ## Lemmas: strings -/

theorem notEq_iff (c : Char) : notEq c = true ↔ c ≠ '=' := by
  simp [notEq]

theorem takeWhile_append_eq (k v : GoString) (hk : '=' ∉ k) :
    (k ++ '=' :: v).takeWhile notEq = k := by
  induction k with
  | nil => simp [List.takeWhile, notEq]
  | cons c k ih =>
    have hc : notEq c = true := (notEq_iff c).2 (fun h => hk (by simp [h]))
    have hk' : '=' ∉ k := fun h => hk (by simp [h])
    simp [List.takeWhile, hc, ih hk']

theorem dropWhile_append_eq (k v : GoString) (hk : '=' ∉ k) :
    (k ++ '=' :: v).dropWhile notEq = '=' :: v := by
  induction k with
  | nil => simp [List.dropWhile, notEq]
  | cons c k ih =>
    have hc : notEq c = true := (notEq_iff c).2 (fun h => hk (by simp [h]))
    have hk' : '=' ∉ k := fun h => hk (by simp [h])
    simp [List.dropWhile, hc, ih hk']

theorem envKey_not_mem (e : GoString) : '=' ∉ envKey e := by
  unfold envKey
  intro h
  have := List.mem_takeWhile_imp h
  simp [notEq] at this

theorem entry_split (e : GoString) (h : '=' ∈ e) : e = envKey e ++ '=' :: envValue e := by
  unfold envKey envValue
  induction e with
  | nil => simp at h
  | cons c cs ih =>
    by_cases hc : c = '='
    · subst hc; simp [List.takeWhile, List.dropWhile, notEq]
    · have h' : '=' ∈ cs := by
        rcases List.mem_cons.1 h with h1 | h1
        · exact absurd h1.symm hc
        · exact h1
      have hn : notEq c = true := (notEq_iff c).2 hc
      have := ih h'
      simp only [List.takeWhile, List.dropWhile, hn, List.cons_append]
      exact congrArg (List.cons c) this

theorem envKey_append (k v : GoString) (hk : '=' ∉ k) : envKey (k ++ '=' :: v) = k :=
  takeWhile_append_eq k v hk

theorem envValue_append (k v : GoString) (hk : '=' ∉ k) : envValue (k ++ '=' :: v) = v := by
  unfold envValue
  rw [dropWhile_append_eq k v hk]
  rfl

theorem indexEq_none_iff (e : GoString) : indexEq e = none ↔ '=' ∉ e := by
  induction e with
  | nil => simp [indexEq]
  | cons c cs ih =>
    by_cases hc : c = '='
    · simp [indexEq, hc]
    · have hc' : ¬ ('=' = c) := fun h => hc h.symm
      simp [indexEq, hc, hc', ih]

theorem indexEq_take (e : GoString) (i : Nat) (h : indexEq e = some i) :
    e.take i = envKey e := by
  unfold envKey
  induction e generalizing i with
  | nil => simp [indexEq] at h
  | cons c cs ih =>
    by_cases hc : c = '='
    · simp [indexEq, hc] at h
      subst h
      simp [List.takeWhile, hc, notEq]
    · have hn : notEq c = true := (notEq_iff c).2 hc
      simp only [indexEq, hc, if_false, Option.map_eq_some'] at h
      obtain ⟨j, hj, rfl⟩ := h
      simp [List.takeWhile, hn, ih j hj]

/-! ## Lemmas: parsing a feed of `-K=V` tokens -/

theorem splitNameValue_entry (c : Char) (k v : GoString) (hk : '=' ∉ k) :
    splitNameValue (c :: (k ++ '=' :: v)) = (c :: k, some v) := by
  simp [splitNameValue, dropWhile_append_eq k v hk, takeWhile_append_eq k v hk]

theorem flagSet_bool_some (P : Platform) (t : ScalarType) (v : GoString) (ht : t = .Bool) :
    flagSet P .Bool v = flagSet P t v := by
  subst ht; rfl

/-- Method parseOne on the token `-K=V` made from a shaped entry `K=V`. -/
theorem parseOne_entry (P : Platform) (fs : FlagSet) (mem : List Field) (e : GoString)
    (rest : List GoString) (he : Shaped e) :
    parseOne P fs mem (('-' :: e) :: rest) =
      (match entryStep P fs mem e with
       | some mem1 => ParseOne.seen mem1 rest
       | none =>
         if envKey e ≠ [] ∧ fs.Lookup (envKey e) = none ∧
            (envKey e = "help".toList ∨ envKey e = "h".toList)
         then ParseOne.help else ParseOne.fail) := by
  obtain ⟨heq, hhead⟩ := he
  have hsplit := entry_split e heq
  have hnk := envKey_not_mem e
  generalize hK : envKey e = K at *
  generalize hV : envValue e = V at *
  subst hsplit
  cases K with
  | nil =>
    simp only [List.nil_append] at hK ⊢
    simp [parseOne, entryStep, hK]
  | cons c k =>
    have hc1 : c ≠ '-' := by
      intro h; apply hhead; simp [h]
    have hc2 : c ≠ '=' := by
      intro h; apply hnk; simp [h]
    have hk : '=' ∉ k := fun h => hnk (by simp [h])
    have hsp := splitNameValue_entry c k V hk
    simp only [List.cons_append] at hK hV ⊢
    unfold parseOne entryStep
    simp only [hK, hV]
    simp only [ne_eq, not_true_eq_false, if_false, hc1, false_and, List.head?_cons,
      Option.some.injEq, hc2, or_self, reduceCtorEq, hsp, List.cons_ne_nil,
      not_false_eq_true, true_and]
    cases hl : fs.Lookup (c :: k) with
    | none => simp
    | some fl =>
      by_cases hb : fl.type = .Bool
      · simp only [hb, if_true]
        rw [← hb]
        by_cases hr : (flagSet P fl.type V).2 = true
        · simp [hr]
        · simp [hr]
      · simp only [hb, if_false]
        by_cases hr : (flagSet P fl.type V).2 = true
        · simp [hr]
        · simp [hr]

/-- The tokens of a feed of entries. -/
theorem parseLoop_entries (P : Platform) (fs : FlagSet) (feed : List GoString)
    (hfeed : ∀ e ∈ feed, Shaped e) (mem mem1 : List Field) :
    parseLoop P fs (feed.length + 1) mem (feed.map (fun e => '-' :: e)) = .ok mem1 ↔
      runEntries P fs mem feed = some mem1 := by
  induction feed generalizing mem with
  | nil =>
    simp [parseLoop, parseOne, runEntries]
  | cons e feed ih =>
    have he := hfeed e (by simp)
    have hrest : ∀ x ∈ feed, Shaped x := fun x hx => hfeed x (by simp [hx])
    simp only [List.map_cons, List.length_cons, runEntries]
    rw [parseLoop, parseOne_entry P fs mem e _ he]
    cases hst : entryStep P fs mem e with
    | some m =>
      simp only
      exact ih hrest m
    | none =>
      simp only
      by_cases hh : envKey e ≠ [] ∧ fs.Lookup (envKey e) = none ∧
          (envKey e = "help".toList ∨ envKey e = "h".toList)
      · rw [if_pos hh]; simp
      · rw [if_neg hh]; simp

/-! ## Lemmas: registration -/

theorem Lookup_isSome_iff (fs : FlagSet) (n : GoString) :
    (fs.Lookup n).isSome = true ↔ n ∈ fs.formal.map Flag.Name := by
  unfold FlagSet.Lookup
  rw [List.find?_isSome]
  simp only [decide_eq_true_eq, List.mem_map]

theorem Lookup_mem (fs : FlagSet) (n : GoString) (fl : Flag) (h : fs.Lookup n = some fl) :
    fl ∈ fs.formal ∧ fl.Name = n := by
  unfold FlagSet.Lookup at h
  exact ⟨List.mem_of_find?_eq_some h, by simpa using List.find?_some h⟩

theorem find_of_mem_nodup (l : List Flag) (fl : Flag) (hmem : fl ∈ l)
    (hnd : (l.map Flag.Name).Nodup) :
    l.find? (fun x => decide (x.Name = fl.Name)) = some fl := by
  induction l with
  | nil => simp at hmem
  | cons a l ih =>
    simp only [List.map_cons, List.nodup_cons] at hnd
    rcases List.mem_cons.1 hmem with h | h
    · subst h; simp [List.find?]
    · have hne : a.Name ≠ fl.Name := by
        intro heq
        apply hnd.1
        rw [heq]
        exact List.mem_map_of_mem _ h
      simp [List.find?, hne, ih h hnd.2]

theorem Lookup_of_mem (fs : FlagSet) (fl : Flag) (hmem : fl ∈ fs.formal)
    (hnd : (fs.formal.map Flag.Name).Nodup) : fs.Lookup fl.Name = some fl :=
  find_of_mem_nodup fs.formal fl hmem hnd

theorem Var_ok_iff (fs fs1 : FlagSet) (fl : Flag) :
    fs.Var fl = .ok fs1 ↔
      GoodName fl.Name ∧ fl.Name ∉ fs.formal.map Flag.Name ∧ fs1 = ⟨fs.formal ++ [fl]⟩ := by
  unfold FlagSet.Var GoodName
  by_cases h1 : fl.Name.head? = some '-'
  · simp [h1]
  · by_cases h2 : '=' ∈ fl.Name
    · simp [h1, h2]
    · by_cases h3 : (fs.Lookup fl.Name).isSome = true
      · have := (Lookup_isSome_iff fs fl.Name).1 h3
        simp only [h1, h2, h3, if_true, if_false, reduceCtorEq, false_iff]
        intro hh
        exact hh.2.1 this
      · have h3' : fl.Name ∉ fs.formal.map Flag.Name :=
          fun hm => h3 ((Lookup_isSome_iff fs fl.Name).2 hm)
        rw [if_neg h1, if_neg h2, if_neg h3]
        constructor
        · intro h
          simp only [Except.ok.injEq] at h
          exact ⟨⟨h1, h2⟩, h3', h.symm⟩
        · intro h; rw [h.2.2]

theorem setupFlagForField_eq (P : Platform) (fs : FlagSet) (p : Nat) (f : Field) :
    setupFlagForField P fs p f =
      (match registers f with
       | none => .ok (fs, f)
       | some t =>
         match fs.Var ⟨externalName f, p, t⟩ with
         | .error e => .error (e, afterSetup P f)
         | .ok fs1 => .ok (fs1, afterSetup P f)) := by
  unfold setupFlagForField registers afterSetup registers
  by_cases hc : CanSet f = true
  · cases hs : switchType f.content with
    | none => simp [hc, hs]
    | some t =>
      simp only [hc, hs, if_true, setupFlagFor, externalName, defaultLiteral,
        Bool.true_eq_false, if_false]
  · simp [hc]

/-- What setupFlagsForStruct has done when it returns: the flags of the registering
fields are added in order and the fields hold their defaults. -/
theorem setupLoop_ok (P : Platform) (fields : List Field) (fs fs1 : FlagSet) (i : Nat)
    (mem : List Field) (h : setupLoop P fs i fields = .ok (fs1, mem)) :
    fs1.formal = fs.formal ++ regsFrom i fields ∧ mem = fields.map (afterSetup P) ∧
      (∀ fl ∈ regsFrom i fields, GoodName fl.Name) ∧
      ((fs.formal.map Flag.Name).Nodup → (fs1.formal.map Flag.Name).Nodup) := by
  induction fields generalizing fs fs1 i mem with
  | nil =>
    simp only [setupLoop, Except.ok.injEq, Prod.mk.injEq] at h
    obtain ⟨rfl, rfl⟩ := h
    simp [regsFrom]
  | cons f rest ih =>
    rw [setupLoop, setupFlagForField_eq] at h
    cases hr : registers f with
    | none =>
      simp only [hr] at h
      cases hl : setupLoop P fs (i + 1) rest with
      | error e => simp [hl] at h
      | ok r =>
        obtain ⟨fs2, rest1⟩ := r
        simp only [hl, Except.ok.injEq, Prod.mk.injEq] at h
        obtain ⟨rfl, rfl⟩ := h
        obtain ⟨h1, h2, h3, h4⟩ := ih fs fs2 (i + 1) rest1 hl
        refine ⟨?_, ?_, ?_, h4⟩
        · simp [regsFrom, hr, h1]
        · simp [afterSetup, hr, h2]
        · simpa [regsFrom, hr] using h3
    | some t =>
      simp only [hr] at h
      cases hv : fs.Var ⟨externalName f, i, t⟩ with
      | error e => simp [hv] at h
      | ok fsv =>
        simp only [hv] at h
        obtain ⟨hg, hnm, rfl⟩ := (Var_ok_iff fs fsv _).1 hv
        cases hl : setupLoop P ⟨fs.formal ++ [⟨externalName f, i, t⟩]⟩ (i + 1) rest with
        | error e => simp [hl] at h
        | ok r =>
          obtain ⟨fs2, rest1⟩ := r
          simp only [hl, Except.ok.injEq, Prod.mk.injEq] at h
          obtain ⟨rfl, rfl⟩ := h
          obtain ⟨h1, h2, h3, h4⟩ := ih _ fs2 (i + 1) rest1 hl
          refine ⟨?_, ?_, ?_, ?_⟩
          · simp [regsFrom, hr, h1]
          · simp [h2]
          · intro fl hfl
            simp only [regsFrom, hr, List.mem_cons] at hfl
            rcases hfl with rfl | hfl
            · exact hg
            · exact h3 fl hfl
          · intro hnd
            apply h4
            simp only [List.map_append, List.map_cons, List.map_nil]
            rw [List.nodup_append]
            refine ⟨hnd, by simp, ?_⟩
            intro a ha hb
            simp only [List.mem_singleton] at hb
            subst hb
            exact hnm ha

theorem mem_regsFrom (fields : List Field) (i : Nat) (fl : Flag) :
    fl ∈ regsFrom i fields ↔
      ∃ j f, fields[j]? = some f ∧ registers f = some fl.type ∧
        fl.Name = externalName f ∧ fl.ptr = i + j := by
  induction fields generalizing i with
  | nil => simp [regsFrom]
  | cons f rest ih =>
    constructor
    · intro h
      have hrest : fl ∈ regsFrom (i + 1) rest → ∃ j f', (f :: rest)[j]? = some f' ∧
          registers f' = some fl.type ∧ fl.Name = externalName f' ∧ fl.ptr = i + j := by
        intro h'
        obtain ⟨j, f', h1, h2, h3, h4⟩ := (ih (i + 1)).1 h'
        exact ⟨j + 1, f', by simpa using h1, h2, h3, by omega⟩
      cases hr : registers f with
      | none =>
        simp only [regsFrom, hr] at h
        exact hrest h
      | some t =>
        simp only [regsFrom, hr, List.mem_cons] at h
        rcases h with rfl | h
        · exact ⟨0, f, by simp, by simp [hr], rfl, by simp⟩
        · exact hrest h
    · rintro ⟨j, f', h1, h2, h3, h4⟩
      cases j with
      | zero =>
        simp only [List.getElem?_cons_zero, Option.some.injEq] at h1
        subst h1
        simp only [regsFrom, h2, List.mem_cons]
        left
        cases fl
        simp only [Flag.mk.injEq]
        exact ⟨h3, by simpa using h4, trivial⟩
      | succ j =>
        simp only [List.getElem?_cons_succ] at h1
        have : fl ∈ regsFrom (i + 1) rest := (ih (i + 1)).2 ⟨j, f', h1, h2, h3, by omega⟩
        cases hr : registers f with
        | none => simpa [regsFrom, hr] using this
        | some t => simp [regsFrom, hr, this]

theorem Linked.lookup_field {fs : FlagSet} {fields : List Field} (h : Linked fs fields)
    (p : Nat) (f : Field) (t : ScalarType) (hf : fields[p]? = some f)
    (hr : registers f = some t) : fs.Lookup (externalName f) = some ⟨externalName f, p, t⟩ := by
  have hmem : (⟨externalName f, p, t⟩ : Flag) ∈ fs.formal := by
    rw [h.1, mem_regsFrom]
    exact ⟨p, f, hf, hr, rfl, by simp⟩
  exact Lookup_of_mem fs _ hmem h.2

theorem Linked.field_lookup {fs : FlagSet} {fields : List Field} (h : Linked fs fields)
    (k : GoString) (fl : Flag) (hl : fs.Lookup k = some fl) :
    ∃ f, fields[fl.ptr]? = some f ∧ registers f = some fl.type ∧ externalName f = k := by
  obtain ⟨hmem, hname⟩ := Lookup_mem fs k fl hl
  rw [h.1, mem_regsFrom] at hmem
  obtain ⟨j, f, h1, h2, h3, h4⟩ := hmem
  refine ⟨f, ?_, h2, ?_⟩
  · rw [h4]; simpa using h1
  · rw [← h3, hname]

/-! ## Lemmas: memory -/

theorem Content.store_store (c : Content) (a b : Scalar) :
    (c.store a).store b = c.store b := by
  cases c <;> rfl

theorem getElem?_storeAt (mem : List Field) (p j : Nat) (v : Scalar) :
    (storeAt mem p v)[j]? =
      if j = p then mem[j]?.map (fun f => { f with content := f.content.store v })
      else mem[j]? := by
  induction mem generalizing p j with
  | nil => simp [storeAt]
  | cons f rest ih =>
    cases p with
    | zero =>
      cases j with
      | zero => simp [storeAt]
      | succ j => simp [storeAt]
    | succ p =>
      cases j with
      | zero => simp [storeAt]
      | succ j => simp [storeAt, ih p j]

theorem lastValue_append_one (K : GoString) (done : List GoString) (e : GoString) :
    lastValue K (done ++ [e]) =
      if envKey e = K then some (envValue e) else lastValue K done := by
  unfold lastValue
  by_cases h : envKey e = K
  · simp [List.filter_append, h, List.filter_cons]
  · simp [List.filter_append, h, List.filter_cons]

theorem lastValue_nil (K : GoString) : lastValue K [] = none := rfl

theorem resolve_nil (P : Platform) (f : Field) : resolve P [] f = afterSetup P f := by
  unfold resolve afterSetup
  cases registers f <;> simp [lastValue_nil]

/-- One accepted entry moves the memory from the resolution of the entries done so far
to the resolution with this entry added. -/
theorem entryStep_resolve (P : Platform) (fs : FlagSet) (fields : List Field)
    (hl : Linked fs fields) (done : List GoString) (e : GoString) (mem1 : List Field)
    (h : entryStep P fs (fields.map (resolve P done)) e = some mem1) :
    mem1 = fields.map (resolve P (done ++ [e])) := by
  unfold entryStep at h
  by_cases hk : envKey e = []
  · simp [hk] at h
  · rw [if_neg hk] at h
    cases hlk : fs.Lookup (envKey e) with
    | none => simp [hlk] at h
    | some fl =>
      simp only [hlk] at h
      by_cases hr : (flagSet P fl.type (envValue e)).2 = true
      · simp [hr] at h
      · rw [if_neg hr] at h
        simp only [Option.some.injEq] at h
        subst h
        obtain ⟨f, hf, hreg, hname⟩ := hl.field_lookup _ fl hlk
        apply List.ext_getElem?
        intro j
        rw [getElem?_storeAt]
        simp only [List.getElem?_map]
        by_cases hj : j = fl.ptr
        · subst hj
          simp only [if_true, hf, Option.map_some']
          congr 1
          unfold resolve
          simp only [hreg, lastValue_append_one, hname, if_true, Content.store_store]
        · rw [if_neg hj]
          cases hfj : fields[j]? with
          | none => simp
          | some g =>
            simp only [Option.map_some', Option.some.injEq]
            unfold resolve
            cases hrg : registers g with
            | none => simp
            | some t =>
              have hne : envKey e ≠ externalName g := by
                intro heq
                have h1 := hl.lookup_field j g t hfj hrg
                rw [← heq, hlk] at h1
                simp only [Option.some.injEq] at h1
                apply hj
                rw [h1]
              simp only [lastValue_append_one, hne, if_false]

/-- The memory after a feed of accepted entries: every field is resolved from the feed. -/
theorem runEntries_resolve (P : Platform) (fs : FlagSet) (fields : List Field)
    (hl : Linked fs fields) (done feed : List GoString) (mem1 : List Field)
    (h : runEntries P fs (fields.map (resolve P done)) feed = some mem1) :
    mem1 = fields.map (resolve P (done ++ feed)) := by
  induction feed generalizing done with
  | nil =>
    simp only [runEntries, Option.some.injEq] at h
    simp [← h]
  | cons e feed ih =>
    rw [runEntries] at h
    cases hs : entryStep P fs (fields.map (resolve P done)) e with
    | none => simp [hs] at h
    | some m =>
      simp only [hs] at h
      have hm := entryStep_resolve P fs fields hl done e m hs
      subst hm
      have := ih (done ++ [e]) h
      simpa using this

/-- Method Parse on the tokens of a feed of shaped entries, when it returns. -/
theorem Parse_feed (P : Platform) (fs : FlagSet) (fields : List Field)
    (hl : Linked fs fields) (feed : List GoString) (hfeed : ∀ e ∈ feed, Shaped e)
    (mem1 : List Field)
    (h : fs.Parse P (fields.map (afterSetup P)) (feed.map (fun e => '-' :: e)) = .ok mem1) :
    mem1 = fields.map (resolve P feed) := by
  unfold FlagSet.Parse at h
  rw [List.length_map] at h
  have h1 := (parseLoop_entries P fs feed hfeed _ mem1).1 h
  have h2 : fields.map (afterSetup P) = fields.map (resolve P []) := by
    apply List.map_congr_left
    intro f _
    rw [resolve_nil]
  rw [h2] at h1
  simpa using runEntries_resolve P fs fields hl [] feed mem1 h1

/-! ## Lemmas: the environment -/

theorem getArgsFromEnv_iff (fs : FlagSet) (env args : List GoString) :
    getArgsFromEnv fs env = some args ↔
      (∀ e ∈ env, '=' ∈ e) ∧ args = (envFeed fs env).map (fun e => '-' :: e) := by
  induction env generalizing args with
  | nil => simp [getArgsFromEnv, envFeed, eq_comm]
  | cons value env ih =>
    rw [getArgsFromEnv]
    cases hi : indexEq value with
    | none =>
      have := (indexEq_none_iff value).1 hi
      simp [this]
    | some i =>
      have hmem : '=' ∈ value := by
        by_contra hc
        rw [(indexEq_none_iff value).2 hc] at hi
        cases hi
      have hkey := indexEq_take value i hi
      simp only [hkey]
      cases hg : getArgsFromEnv fs env with
      | none =>
        simp only [reduceCtorEq, List.mem_cons, forall_eq_or_imp, false_iff, not_and]
        intro hall _
        have := (ih ((envFeed fs env).map (fun e => '-' :: e))).2 ⟨hall.2, rfl⟩
        rw [hg] at this
        cases this
      | some a =>
        obtain ⟨hall, ha⟩ := (ih a).1 hg
        subst ha
        by_cases hlk : (fs.Lookup (envKey value)).isNone = true
        · have hs : (fs.Lookup (envKey value)).isSome = false := by
            cases h : fs.Lookup (envKey value) <;> simp_all
          simp only [hlk, if_true, Option.some.injEq, List.mem_cons, forall_eq_or_imp, hmem,
            true_and, envFeed, List.filter_cons, hs, Bool.false_eq_true, if_false]
          constructor
          · intro h; exact ⟨hall, h.symm⟩
          · intro h; exact h.2.symm
        · have hs : (fs.Lookup (envKey value)).isSome = true := by
            cases h : fs.Lookup (envKey value) <;> simp_all
          simp only [hlk, if_false, Option.some.injEq, List.mem_cons, forall_eq_or_imp, hmem,
            true_and, envFeed, List.filter_cons, hs, if_true, List.map_cons,
            Bool.false_eq_true]
          constructor
          · intro h; exact ⟨hall, h.symm⟩
          · intro h; exact h.2.symm

theorem envFeed_shaped (fs : FlagSet) (env : List GoString) (henv : ∀ e ∈ env, '=' ∈ e)
    (hgood : ∀ fl ∈ fs.formal, GoodName fl.Name) : ∀ e ∈ envFeed fs env, Shaped e := by
  intro e he
  unfold envFeed at he
  rw [List.mem_filter] at he
  refine ⟨henv e he.1, ?_⟩
  cases hl : fs.Lookup (envKey e) with
  | none => simp [hl] at he
  | some fl =>
    obtain ⟨hm, hn⟩ := Lookup_mem fs _ fl hl
    rw [← hn]
    exact (hgood fl hm).1

theorem lastValue_envFeed (fs : FlagSet) (env : List GoString) (K : GoString)
    (hK : (fs.Lookup K).isSome = true) : lastValue K (envFeed fs env) = lastValue K env := by
  unfold lastValue envFeed
  rw [List.filter_filter]
  congr 2
  apply List.filter_congr
  intro e _
  by_cases h : envKey e = K
  · simp [h, hK]
  · simp [h]

theorem lastValue_append_right (K : GoString) (a b : List GoString)
    (hb : ∀ e ∈ b, envKey e ≠ K) : lastValue K (a ++ b) = lastValue K a := by
  unfold lastValue
  rw [List.filter_append]
  have : b.filter (fun e => decide (envKey e = K)) = [] := by
    rw [List.filter_eq_nil_iff]
    intro e he
    simpa using hb e he
  rw [this, List.append_nil]

theorem resolve_envFeed (P : Platform) (fs : FlagSet) (fields : List Field)
    (hl : Linked fs fields) (env extra : List GoString) :
    fields.map (resolve P (envFeed fs env ++ extra)) = fields.map (resolve P (env ++ extra)) := by
  apply List.ext_getElem?
  intro j
  simp only [List.getElem?_map]
  cases hf : fields[j]? with
  | none => rfl
  | some f =>
    simp only [Option.map_some', Option.some.injEq]
    unfold resolve
    cases hr : registers f with
    | none => rfl
    | some t =>
      have hK : (fs.Lookup (externalName f)).isSome = true := by
        rw [hl.lookup_field j f t hf hr]; rfl
      have : lastValue (externalName f) (envFeed fs env ++ extra) =
          lastValue (externalName f) (env ++ extra) := by
        unfold lastValue
        rw [List.filter_append, List.filter_append]
        have h2 := lastValue_envFeed fs env (externalName f) hK
        unfold lastValue envFeed at h2
        unfold envFeed
        rw [List.filter_filter] at h2 ⊢
        congr 3
        apply List.filter_congr
        intro e _
        by_cases h : envKey e = externalName f
        · simp [h, hK]
        · simp [h]
      simp only [this]

/-! ## Lemmas: the entry points -/

theorem appendArgs_eq (args rest : List GoString) :
    appendArgs args rest = args ++ passedArgs rest := by
  unfold passedArgs
  induction rest generalizing args with
  | nil => simp [appendArgs]
  | cons a rest ih =>
    rw [appendArgs]
    by_cases h : testMark.isPrefixOf a = false
    · rw [if_pos h, ih]
      simp [List.filter_cons, h]
    · rw [if_neg h, ih]
      have h' : testMark.isPrefixOf a = true := by simpa using h
      simp [List.filter_cons, h']

theorem setup_linked (P : Platform) (fields : List Field) (fs : FlagSet) (mem : List Field)
    (h : setupLoop P NewFlagSet 0 fields = .ok (fs, mem)) :
    Linked fs fields ∧ mem = fields.map (afterSetup P) ∧ ∀ fl ∈ fs.formal, GoodName fl.Name := by
  obtain ⟨h1, h2, h3, h4⟩ := setupLoop_ok P fields NewFlagSet fs 0 mem h
  have h1' : fs.formal = regsFrom 0 fields := by simpa [NewFlagSet] using h1
  refine ⟨⟨h1', h4 (by simp [NewFlagSet])⟩, h2, ?_⟩
  intro fl hfl
  rw [h1'] at hfl
  exact h3 fl hfl

theorem isPointerToStruct_ptrToStruct (fields : List Field) :
    isPointerToStruct (ptrToStruct fields) = true := by
  rfl

theorem setupFlagsForStruct_ptrToStruct (P : Platform) (fs : FlagSet) (fields : List Field) :
    setupFlagsForStruct P fs (ptrToStruct fields) =
      (match setupLoop P fs 0 fields with
       | .error (e, mem) => .error (e, ptrToStruct mem)
       | .ok r => .ok r) := by
  rfl

theorem finish_returned (r : Except Exit (List Field)) (err : Option Error) (v1 : Any)
    (h : finish r = .returned err v1) : ∃ mem, r = .ok mem ∧ err = none ∧ v1 = ptrToStruct mem := by
  unfold finish at h
  split at h
  · cases h
  · rename_i mem
    simp only [Outcome.returned.injEq] at h
    exact ⟨mem, rfl, h.1.symm, h.2.symm⟩

/-- When ReadStructFromEnv returns nil on a pointer to a struct, every field is
resolved from the environment. -/
theorem ReadStructFromEnv_returned (P : Platform) (env : List GoString)
    (fields : List Field) (v1 : Any)
    (h : ReadStructFromEnv P env (ptrToStruct fields) = .returned none v1) :
    v1 = ptrToStruct (fields.map (resolve P env)) := by
  unfold ReadStructFromEnv at h
  rw [isPointerToStruct_ptrToStruct, setupFlagsForStruct_ptrToStruct] at h
  simp only [Bool.true_eq_false, if_false] at h
  cases hs : setupLoop P NewFlagSet 0 fields with
  | error e => simp [hs] at h
  | ok r =>
    obtain ⟨fs, mem⟩ := r
    simp only [hs] at h
    obtain ⟨hl, hmem, hgood⟩ := setup_linked P fields fs mem hs
    cases hg : getArgsFromEnv fs env with
    | none => simp [hg] at h
    | some args =>
      simp only [hg] at h
      obtain ⟨henv, hargs⟩ := (getArgsFromEnv_iff fs env args).1 hg
      obtain ⟨mem1, hp, -, hv⟩ := finish_returned _ _ _ h
      subst hmem hargs
      have := Parse_feed P fs fields hl (envFeed fs env)
        (envFeed_shaped fs env henv hgood) mem1 hp
      rw [hv, this]
      have h2 := resolve_envFeed P fs fields hl env []
      simp only [List.append_nil] at h2
      rw [h2]

/-! ## Lemmas: calls that run to completion -/

theorem setupLoop_total (P : Platform) (fields : List Field) (fs : FlagSet) (i : Nat)
    (hgood : ∀ fl ∈ regsFrom i fields, GoodName fl.Name)
    (hnd : ((fs.formal ++ regsFrom i fields).map Flag.Name).Nodup) :
    setupLoop P fs i fields =
      .ok (⟨fs.formal ++ regsFrom i fields⟩, fields.map (afterSetup P)) := by
  induction fields generalizing fs i with
  | nil => simp [setupLoop, regsFrom]
  | cons f rest ih =>
    rw [setupLoop, setupFlagForField_eq]
    cases hr : registers f with
    | none =>
      simp only [regsFrom, hr] at hgood hnd
      simp only [hr]
      rw [ih fs (i + 1) hgood hnd]
      simp [regsFrom, hr, afterSetup]
    | some t =>
      simp only [regsFrom, hr] at hgood hnd
      have hv : fs.Var ⟨externalName f, i, t⟩ =
          .ok ⟨fs.formal ++ [⟨externalName f, i, t⟩]⟩ := by
        rw [Var_ok_iff]
        refine ⟨hgood _ (by simp), ?_, rfl⟩
        intro hm
        simp only [List.map_append, List.map_cons] at hnd
        rw [List.nodup_append] at hnd
        exact hnd.2.2 hm (by simp)
      simp only [hr, hv]
      have hnd' : ((({ formal := fs.formal ++ [⟨externalName f, i, t⟩] } : FlagSet).formal ++
          regsFrom (i + 1) rest).map Flag.Name).Nodup := by
        simpa using hnd
      rw [ih _ (i + 1) (fun fl hfl => hgood fl (by simp [hfl])) hnd']
      simp [regsFrom, hr]

theorem runEntries_total (P : Platform) (fs : FlagSet) (feed : List GoString)
    (hacc : ∀ e ∈ feed, Accepted P fs e) (mem : List Field) :
    ∃ mem1, runEntries P fs mem feed = some mem1 := by
  induction feed generalizing mem with
  | nil => exact ⟨mem, rfl⟩
  | cons e feed ih =>
    obtain ⟨hk, fl, hl, hv⟩ := hacc e (by simp)
    have : entryStep P fs mem e = some (storeAt mem fl.ptr (flagSet P fl.type (envValue e)).1) := by
      unfold entryStep
      simp [hk, hl, hv]
    rw [runEntries, this]
    exact ih (fun x hx => hacc x (by simp [hx])) _

/-- ReadStructFromEnv returns nil when the names of the flags it registers are accepted
by flag.Var and pairwise distinct, every entry of the environment holds an `=`, and
every entry whose key is a registered name is accepted by parseOne. -/
theorem ReadStructFromEnv_completes (P : Platform) (env : List GoString)
    (fields : List Field)
    (hgood : ∀ fl ∈ regsFrom 0 fields, GoodName fl.Name)
    (hnd : ((regsFrom 0 fields).map Flag.Name).Nodup)
    (henv : ∀ e ∈ env, '=' ∈ e)
    (hacc : ∀ e ∈ envFeed ⟨regsFrom 0 fields⟩ env, Accepted P ⟨regsFrom 0 fields⟩ e) :
    ReadStructFromEnv P env (ptrToStruct fields) =
      .returned none (ptrToStruct (fields.map (resolve P env))) := by
  have hs := setupLoop_total P fields NewFlagSet 0 hgood (by simpa [NewFlagSet] using hnd)
  simp only [NewFlagSet, List.nil_append] at hs
  have hl : Linked ⟨regsFrom 0 fields⟩ fields := ⟨rfl, hnd⟩
  have hg := (getArgsFromEnv_iff ⟨regsFrom 0 fields⟩ env _).2 ⟨henv, rfl⟩
  have hsh := envFeed_shaped ⟨regsFrom 0 fields⟩ env henv hgood
  obtain ⟨mem1, hrun⟩ := runEntries_total P ⟨regsFrom 0 fields⟩ _ hacc
    (fields.map (afterSetup P))
  have hp : FlagSet.Parse P ⟨regsFrom 0 fields⟩ (fields.map (afterSetup P))
      ((envFeed ⟨regsFrom 0 fields⟩ env).map (fun e => '-' :: e)) = .ok mem1 := by
    unfold FlagSet.Parse
    rw [List.length_map]
    exact (parseLoop_entries P _ _ hsh _ mem1).2 hrun
  have hm := Parse_feed P _ fields hl _ hsh mem1 hp
  have h2 := resolve_envFeed P _ fields hl env []
  simp only [List.append_nil] at h2
  unfold ReadStructFromEnv
  rw [isPointerToStruct_ptrToStruct, setupFlagsForStruct_ptrToStruct]
  simp only [Bool.true_eq_false, if_false, NewFlagSet, hs, hg, hp, finish]
  rw [hm, h2]
  rfl

/-! ## Lemmas: strconv and defaults -/

theorem ParseUint_eq (P : Platform) (s : GoString) (b : Nat) (hb0 : b ≠ 0) (hb : b ≤ 64) :
    ParseUint P s 0 b =
      if s = [] then (0, some .ErrSyntax)
      else
        match uintLoop true (detectBase s).1 (maxUint64 / (detectBase s).1 + 1) (2 ^ b - 1)
            (detectBase s).2 0 false with
        | .ret n e => (n, some e)
        | .done n us =>
          if us = true ∧ underscoreOK s = false then (0, some .ErrSyntax) else (n, none) := by
  unfold ParseUint
  have hb' : ¬ b > 64 := by omega
  simp only [true_or, not_true_eq_false, if_false, if_true, hb', hb0, decide_True]

theorem uintLoop_ret (base0 : Bool) (base cutoff maxVal : Nat) (cs : List Char) (n : Nat)
    (us : Bool) (m : Nat) (e : NumError)
    (h : uintLoop base0 base cutoff maxVal cs n us = .ret m e) :
    (m = 0 ∧ e = .ErrSyntax) ∨ (m = maxVal ∧ e = .ErrRange) := by
  induction cs generalizing n us with
  | nil => simp [uintLoop] at h
  | cons c cs ih =>
    rw [uintLoop] at h
    split at h
    · exact ih _ _ h
    · split at h
      · simp only [UintLoop.ret.injEq] at h; exact Or.inl ⟨h.1.symm, h.2.symm⟩
      · split at h
        · simp only [UintLoop.ret.injEq] at h; exact Or.inl ⟨h.1.symm, h.2.symm⟩
        · split at h
          · simp only [UintLoop.ret.injEq] at h; exact Or.inr ⟨h.1.symm, h.2.symm⟩
          · simp only at h
            split at h
            · simp only [UintLoop.ret.injEq] at h; exact Or.inr ⟨h.1.symm, h.2.symm⟩
            · exact ih _ _ h

theorem uintLoop_done (base0 : Bool) (base cutoff maxVal maxVal1 : Nat) (cs : List Char)
    (n : Nat) (us : Bool) (m : Nat) (u : Bool) (hle : maxVal ≤ maxVal1) (hn : n ≤ maxVal)
    (h : uintLoop base0 base cutoff maxVal cs n us = .done m u) :
    uintLoop base0 base cutoff maxVal1 cs n us = .done m u ∧ m ≤ maxVal := by
  induction cs generalizing n us with
  | nil =>
    simp only [uintLoop, UintLoop.done.injEq] at h ⊢
    exact ⟨h, h.1 ▸ hn⟩
  | cons c cs ih =>
    rw [uintLoop] at h ⊢
    split at h
    · rename_i hc
      rw [if_pos hc]
      exact ih _ _ hn h
    · rename_i hc
      rw [if_neg hc]
      split at h
      · cases h
      · rename_i d hd
        simp only
        split at h
        · cases h
        · rename_i h1
          rw [if_neg h1]
          split at h
          · cases h
          · rename_i h2
            rw [if_neg h2]
            simp only at h ⊢
            split at h
            · cases h
            · rename_i h3
              have h3' : ¬ ((n * base + d) % 2 ^ 64 < n * base ∨
                  (n * base + d) % 2 ^ 64 > maxVal1) := by
                intro hh; apply h3
                rcases hh with hh | hh
                · exact Or.inl hh
                · exact Or.inr (by omega)
              rw [if_neg h3']
              exact ih _ _ (by omega) h


theorem ParseUint_ok_mono (P : Platform) (s : GoString) (b : Nat) (n : Nat) (hb0 : b ≠ 0)
    (hb : b ≤ 64) (h : ParseUint P s 0 b = (n, none)) :
    ParseUint P s 0 64 = (n, none) ∧ n < 2 ^ b := by
  rw [ParseUint_eq P s b hb0 hb] at h
  rw [ParseUint_eq P s 64 (by decide) (by decide)]
  by_cases hs : s = []
  · simp [hs] at h
  · rw [if_neg hs] at h ⊢
    have hpow : 2 ^ b - 1 ≤ 2 ^ 64 - 1 := by
      have := Nat.pow_le_pow_right (show 0 < 2 by decide) hb
      omega
    have hpos : 0 < 2 ^ b := Nat.two_pow_pos _
    cases hl : uintLoop true (detectBase s).1 (maxUint64 / (detectBase s).1 + 1) (2 ^ b - 1)
        (detectBase s).2 0 false with
    | ret m e => simp [hl] at h
    | done m u =>
      obtain ⟨h1, h2⟩ := uintLoop_done _ _ _ _ _ _ _ _ _ _ hpow (Nat.zero_le _) hl
      rw [h1]
      simp only [hl] at h
      simp only
      split at h
      · cases h
      · rename_i hu
        rw [if_neg hu]
        simp only [Prod.mk.injEq, and_true] at h
        subst h
        exact ⟨rfl, by omega⟩

theorem ParseUint_err (P : Platform) (s : GoString) (b : Nat) (hb0 : b ≠ 0) (hb : b ≤ 64)
    (e : NumError) (h : (ParseUint P s 0 b).2 = some e) :
    ((ParseUint P s 0 b).1 = 0 ∧ e = .ErrSyntax) ∨
      ((ParseUint P s 0 b).1 = 2 ^ b - 1 ∧ e = .ErrRange) := by
  rw [ParseUint_eq P s b hb0 hb] at h ⊢
  by_cases hs : s = []
  · simp only [hs, if_true, Option.some.injEq] at h ⊢
    exact Or.inl ⟨trivial, h.symm⟩
  · rw [if_neg hs] at h ⊢
    cases hl : uintLoop true (detectBase s).1 (maxUint64 / (detectBase s).1 + 1) (2 ^ b - 1)
        (detectBase s).2 0 false with
    | ret m e1 =>
      simp only [hl, Option.some.injEq] at h ⊢
      subst h
      exact uintLoop_ret _ _ _ _ _ _ _ _ _ hl
    | done m u =>
      simp only [hl] at h ⊢
      split at h
      · rename_i hu
        rw [if_pos hu]
        simp only [Option.some.injEq] at h
        exact Or.inl ⟨rfl, h.symm⟩
      · cases h

theorem ParseInt_eq (P : Platform) (c : Char) (cs : GoString) (b : Nat) (hb0 : b ≠ 0) :
    ParseInt P (c :: cs) 0 b =
      (let r := ParseUint P (if c = '+' ∨ c = '-' then cs else c :: cs) 0 b
       if r.2.isSome ∧ r.2 ≠ some .ErrRange then (0, r.2)
       else if decide (c = '-') = false ∧ r.1 ≥ 2 ^ (b - 1) then
         (((2 ^ (b - 1) : Nat) : Int) - 1, some .ErrRange)
       else if decide (c = '-') = true ∧ r.1 > 2 ^ (b - 1) then
         (-((2 ^ (b - 1) : Nat) : Int), some .ErrRange)
       else if decide (c = '-') = true then (-(r.1 : Int), none) else ((r.1 : Int), none)) := by
  simp only [ParseInt, hb0, if_false]

theorem ParseInt_ok_mono (P : Platform) (s : GoString) (b : Nat) (v : Int) (hb2 : 2 ≤ b)
    (hb : b ≤ 64) (h : ParseInt P s 0 b = (v, none)) :
    ParseInt P s 0 64 = (v, none) ∧ -((2 ^ (b - 1) : Nat) : Int) ≤ v ∧
      v < ((2 ^ (b - 1) : Nat) : Int) := by
  cases s with
  | nil => simp [ParseInt] at h
  | cons c cs =>
    have hb0 : b ≠ 0 := by omega
    rw [ParseInt_eq P c cs b hb0] at h
    rw [ParseInt_eq P c cs 64 (by decide)]
    generalize hs1 : (if c = '+' ∨ c = '-' then cs else c :: cs) = s1 at h ⊢
    simp only at h ⊢
    have hpos : 0 < 2 ^ (b - 1) := Nat.two_pow_pos _
    have hpow : 2 ^ (b - 1) ≤ 2 ^ (64 - 1) := Nat.pow_le_pow_right (by decide) (by omega)
    have hdouble : 2 ^ b = 2 * 2 ^ (b - 1) := by
      obtain ⟨k, rfl⟩ : ∃ k, b = k + 1 := ⟨b - 1, by omega⟩
      simp [pow_succ, Nat.mul_comm]
    split at h
    · simp only [Prod.mk.injEq] at h
      rename_i h1
      rw [h.2] at h1
      simp at h1
    · rename_i h1
      have herr : (ParseUint P s1 0 b).2 = none ∨ (ParseUint P s1 0 b).2 = some .ErrRange := by
        cases he : (ParseUint P s1 0 b).2 with
        | none => exact Or.inl rfl
        | some e =>
          right
          by_contra hne
          exact h1 ⟨by simp [he], by rw [he]; exact hne⟩
      split at h
      · simp at h
      · rename_i h2
        split at h
        · simp at h
        · rename_i h3
          have hnone : (ParseUint P s1 0 b).2 = none := by
            rcases herr with he | he
            · exact he
            · exfalso
              rcases ParseUint_err P s1 b hb0 hb _ he with ⟨_, h5⟩ | ⟨h4, _⟩
              · cases h5
              · by_cases hneg : decide (c = '-') = true
                · apply h3; refine ⟨hneg, ?_⟩; rw [h4]
                  have : 2 ^ 1 ≤ 2 ^ (b - 1) := Nat.pow_le_pow_right (by decide) (by omega)
                  omega
                · apply h2; refine ⟨by simpa using hneg, ?_⟩; rw [h4]; omega
          have hpu : ParseUint P s1 0 b = ((ParseUint P s1 0 b).1, none) := by
            rw [← hnone]
          obtain ⟨h64, hlt⟩ := ParseUint_ok_mono P s1 b _ hb0 hb hpu
          rw [h64]
          simp only [Option.isSome_none, Bool.false_eq_true, false_and, if_false]
          generalize (ParseUint P s1 0 b).1 = un at *
          by_cases hneg : c = '-'
          · simp only [hneg, decide_True, true_and, if_true, Prod.mk.injEq, and_true,
              Bool.true_eq_false, false_and, if_false, gt_iff_lt, not_lt] at h h3 ⊢
            subst h
            have : ¬ (2 ^ (64 - 1) < un) := by omega
            rw [if_neg this]
            exact ⟨rfl, by omega, by omega⟩
          · simp only [hneg, decide_False, true_and, if_false, Prod.mk.injEq, and_true,
              Bool.false_eq_true, false_and, ge_iff_le, not_le] at h h2 ⊢
            subst h
            have : ¬ (2 ^ (64 - 1) ≤ un) := by omega
            rw [if_neg this]
            exact ⟨rfl, by omega, by omega⟩


theorem toInt_of_bounds (P : Platform) (v : Int)
    (h1 : -((2 ^ (P.IntSize - 1) : Nat) : Int) ≤ v) (h2 : v < ((2 ^ (P.IntSize - 1) : Nat) : Int)) :
    toInt P v = v := by
  unfold toInt
  rcases P.intSize_cases with h | h
  · rw [h] at h1 h2 ⊢
    norm_num at h1 h2 ⊢
    unfold Int.bmod
    simp only
    push_cast
    split <;> omega
  · rw [h] at h1 h2 ⊢
    norm_num at h1 h2 ⊢
    unfold Int.bmod
    simp only
    push_cast
    split <;> omega

theorem intSize_bounds (P : Platform) : 2 ≤ P.IntSize ∧ P.IntSize ≤ 64 ∧ P.IntSize ≠ 0 := by
  rcases P.intSize_cases with h | h <;> omega

/-- A default text that parses as the type of the field is the parsed default. -/
theorem defaultValue_parsed (P : Platform) (t : ScalarType) (val : GoString)
    (h : (flagSet P t val).2 = false) : defaultValue P t val = (flagSet P t val).1 := by
  obtain ⟨hb2, hb, hb0⟩ := intSize_bounds P
  cases t with
  | Bool => rfl
  | Duration => rfl
  | Float64 => rfl
  | Int64 => rfl
  | String => rfl
  | Uint64 => rfl
  | Int =>
    simp only [flagSet, defaultValue] at h ⊢
    have hnone : (ParseInt P val 0 P.IntSize).2 = none := by
      cases he : (ParseInt P val 0 P.IntSize).2 with
      | none => rfl
      | some e => rw [he] at h; simp at h
    have hp : ParseInt P val 0 P.IntSize = ((ParseInt P val 0 P.IntSize).1, none) := by
      rw [← hnone]
    obtain ⟨h64, h1, h2⟩ := ParseInt_ok_mono P val P.IntSize _ hb2 hb hp
    rw [h64]
    simp only [Scalar.int.injEq]
    exact toInt_of_bounds P _ h1 h2
  | Uint =>
    simp only [flagSet, defaultValue] at h ⊢
    have hnone : (ParseUint P val 0 P.IntSize).2 = none := by
      cases he : (ParseUint P val 0 P.IntSize).2 with
      | none => rfl
      | some e => rw [he] at h; simp at h
    have hp : ParseUint P val 0 P.IntSize = ((ParseUint P val 0 P.IntSize).1, none) := by
      rw [← hnone]
    obtain ⟨h64, h1⟩ := ParseUint_ok_mono P val P.IntSize _ hb0 hb hp
    rw [h64]
    simp only [Scalar.uint.injEq]
    unfold toUint
    exact Nat.mod_eq_of_lt h1

theorem ParseInt_malformed (P : Platform) (s : GoString)
    (h : (ParseInt P s 0 64).2 = some .ErrSyntax) : (ParseInt P s 0 64).1 = 0 := by
  cases s with
  | nil => rfl
  | cons c cs =>
    rw [ParseInt_eq P c cs 64 (by decide)] at h ⊢
    generalize ParseUint P (if c = '+' ∨ c = '-' then cs else c :: cs) 0 64 = r at h ⊢
    simp only at h ⊢
    by_cases h1 : r.2.isSome = true ∧ r.2 ≠ some NumError.ErrRange
    · rw [if_pos h1]
    · rw [if_neg h1] at h
      exfalso
      split at h
      · cases h
      · split at h
        · cases h
        · split at h <;> cases h

theorem toInt_zero (P : Platform) : toInt P 0 = 0 := by
  unfold toInt
  rcases P.intSize_cases with h | h <;> rw [h] <;> rfl

/-- A default text with a syntax error (for bool and duration: with any error) gives
the zero value. -/
theorem defaultValue_malformed (P : Platform) (t : ScalarType) (val : GoString)
    (h : SyntaxFailure P t val) : defaultValue P t val = zeroValue t := by
  cases t with
  | Bool =>
    simp only [SyntaxFailure, defaultValue, zeroValue, Scalar.bool.injEq] at h ⊢
    unfold ParseBool at h ⊢
    split
    · rename_i h1; rw [if_pos h1] at h; simp at h
    · split <;> rfl
  | Duration =>
    simp only [SyntaxFailure, defaultValue, zeroValue, Scalar.duration.injEq] at h ⊢
    unfold ParseDuration at h ⊢
    simp only at h ⊢
    split
    · rfl
    · rename_i h1
      rw [if_neg h1] at h
      split
      · rfl
      · rename_i h2
        rw [if_neg h2] at h
        split
        · rfl
        · rename_i d hd
          rw [hd] at h
          simp only at h
          split
          · rename_i h3; rw [if_pos h3] at h; cases h
          · split
            · rfl
            · rename_i h3 h4; rw [if_neg h3, if_neg h4] at h; cases h
  | Float64 =>
    simp only [SyntaxFailure, defaultValue, zeroValue, Scalar.float64.injEq] at h ⊢
    exact P.parseFloat_malformed val h
  | Int =>
    simp only [SyntaxFailure, defaultValue, zeroValue, Scalar.int.injEq] at h ⊢
    rw [ParseInt_malformed P val h, toInt_zero]
  | Int64 =>
    simp only [SyntaxFailure, defaultValue, zeroValue, Scalar.int64.injEq] at h ⊢
    exact ParseInt_malformed P val h
  | String => simp [SyntaxFailure] at h
  | Uint =>
    simp only [SyntaxFailure, defaultValue, zeroValue, Scalar.uint.injEq] at h ⊢
    rcases ParseUint_err P val 64 (by decide) (by decide) _ h with h1 | h1
    · rw [h1.1]; simp [toUint]
    · cases h1.2
  | Uint64 =>
    simp only [SyntaxFailure, defaultValue, zeroValue, Scalar.uint64.injEq] at h ⊢
    rcases ParseUint_err P val 64 (by decide) (by decide) _ h with h1 | h1
    · exact h1.1
    · cases h1.2

/-- Without a default tag the default is the zero value. -/
theorem defaultValue_nil (P : Platform) (t : ScalarType) :
    defaultValue P t [] = zeroValue t := by
  cases t with
  | String => rfl
  | Bool => exact defaultValue_malformed P _ _ (by simp [SyntaxFailure, ParseBool])
  | Duration => exact defaultValue_malformed P _ _ (by simp [SyntaxFailure, ParseDuration])
  | Float64 => exact defaultValue_malformed P _ _ P.parseFloat_empty
  | Int => exact defaultValue_malformed P _ _ (by simp [SyntaxFailure, ParseInt])
  | Int64 => exact defaultValue_malformed P _ _ (by simp [SyntaxFailure, ParseInt])
  | Uint => exact defaultValue_malformed P _ _ (by simp [SyntaxFailure, ParseUint])
  | Uint64 => exact defaultValue_malformed P _ _ (by simp [SyntaxFailure, ParseUint])

/-! ## Lemmas: calls under their preconditions -/

theorem eligible_iff (f : Field) :
    eligible f = true ↔ ∃ v0, f.content = .scalar v0 ∧ f.sf.PkgPath = [] := by
  unfold eligible
  cases hc : f.content <;> simp

theorem eligible_registers (f : Field) (v0 : Scalar) (h : eligible f = true)
    (hc : f.content = .scalar v0) : registers f = some v0.type := by
  obtain ⟨v, hv, hp⟩ := (eligible_iff f).1 h
  simp [registers, CanSet, hp, hc, switchType]

theorem externalName_ne_nil (f : Field) (h : f.sf.Name ≠ []) : externalName f ≠ [] := by
  unfold externalName getFlagNameAndDefault
  simp only
  split
  · exact h
  · rename_i h1; exact h1

theorem regsFrom_names (fields : List Field) (i : Nat) :
    (regsFrom i fields).map Flag.Name =
      (fields.filter (fun f => (registers f).isSome)).map externalName := by
  induction fields generalizing i with
  | nil => rfl
  | cons f rest ih =>
    cases hr : registers f with
    | none => simp [regsFrom, hr, List.filter_cons, ih]
    | some t => simp [regsFrom, hr, List.filter_cons, ih]

theorem Wellformed.regs_good {P : Platform} {env : List GoString} {fields : List Field}
    (h : Wellformed P env fields) : ∀ fl ∈ regsFrom 0 fields, GoodName fl.Name := by
  intro fl hfl
  obtain ⟨j, f, h1, h2, h3, -⟩ := (mem_regsFrom fields 0 fl).1 hfl
  have hm : f ∈ fields := List.mem_iff_getElem?.2 ⟨j, h1⟩
  rw [h3]
  exact h.goodNames f hm (h.noIfaceScalar f hm (by simp [h2]))

theorem Wellformed.regs_nodup {P : Platform} {env : List GoString} {fields : List Field}
    (h : Wellformed P env fields) : ((regsFrom 0 fields).map Flag.Name).Nodup := by
  rw [regsFrom_names]
  have : fields.filter (fun f => (registers f).isSome) = fields.filter eligible := by
    apply List.filter_congr
    intro f hf
    cases he : eligible f with
    | true =>
      obtain ⟨v0, hv, -⟩ := (eligible_iff f).1 he
      simp [eligible_registers f v0 he hv]
    | false =>
      cases hr : (registers f).isSome with
      | false => rfl
      | true => rw [h.noIfaceScalar f hf hr] at he; cases he
  rw [this]
  exact h.distinct

theorem Wellformed.linked {P : Platform} {env : List GoString} {fields : List Field}
    (h : Wellformed P env fields) : Linked ⟨regsFrom 0 fields⟩ fields :=
  ⟨rfl, h.regs_nodup⟩

theorem Wellformed.accepted {P : Platform} {env : List GoString} {fields : List Field}
    (h : Wellformed P env fields) :
    ∀ e ∈ envFeed ⟨regsFrom 0 fields⟩ env, Accepted P ⟨regsFrom 0 fields⟩ e := by
  intro e he
  unfold envFeed at he
  rw [List.mem_filter] at he
  obtain ⟨hmem, hl⟩ := he
  cases hlk : FlagSet.Lookup ⟨regsFrom 0 fields⟩ (envKey e) with
  | none => simp [hlk] at hl
  | some fl =>
    obtain ⟨f, hf, hreg, hname⟩ := h.linked.field_lookup _ fl hlk
    have hm : f ∈ fields := List.mem_iff_getElem?.2 ⟨_, hf⟩
    have hel := h.noIfaceScalar f hm (by simp [hreg])
    obtain ⟨v0, hv, -⟩ := (eligible_iff f).1 hel
    have ht : fl.type = v0.type := by
      have := eligible_registers f v0 hel hv
      rw [hreg] at this
      exact Option.some.inj this
    refine ⟨?_, fl, hlk, ?_⟩
    · rw [← hname]; exact externalName_ne_nil f (h.named f hm)
    · rw [ht]
      have := h.valid e hmem f hm hel hname.symm
      simpa [validFor, hv] using this

/-- Method Parse on the tokens of a feed of shaped, accepted entries returns, with every
field resolved from the feed. -/
theorem Parse_completes (P : Platform) (fs : FlagSet) (fields : List Field)
    (hl : Linked fs fields) (feed : List GoString) (hsh : ∀ e ∈ feed, Shaped e)
    (hacc : ∀ e ∈ feed, Accepted P fs e) :
    fs.Parse P (fields.map (afterSetup P)) (feed.map (fun e => '-' :: e)) =
      .ok (fields.map (resolve P feed)) := by
  obtain ⟨mem1, hrun⟩ := runEntries_total P fs feed hacc (fields.map (afterSetup P))
  have hp : fs.Parse P (fields.map (afterSetup P)) (feed.map (fun e => '-' :: e)) =
      .ok mem1 := by
    unfold FlagSet.Parse
    rw [List.length_map]
    exact (parseLoop_entries P _ _ hsh _ mem1).2 hrun
  rw [hp, Parse_feed P fs fields hl feed hsh mem1 hp]

/-- ReadStructFromEnv returns nil under its preconditions, with every field resolved
from the environment. -/
theorem ReadStructFromEnv_wellformed (P : Platform) (env : List GoString)
    (fields : List Field) (h : Wellformed P env fields) :
    ReadStructFromEnv P env (ptrToStruct fields) =
      .returned none (ptrToStruct (fields.map (resolve P env))) :=
  ReadStructFromEnv_completes P env fields h.regs_good h.regs_nodup h.envEq h.accepted

/-! ## Lemmas: the value of a field after a call -/

theorem resolve_eligible (P : Platform) (feed : List GoString) (f : Field) (v0 : Scalar)
    (hel : eligible f = true) (hc : f.content = .scalar v0) :
    resolve P feed f = ⟨f.sf, .scalar
      (match lastValue (externalName f) feed with
       | some s => (flagSet P v0.type s).1
       | none => defaultValue P v0.type (defaultLiteral f))⟩ := by
  unfold resolve
  rw [eligible_registers f v0 hel hc]
  simp only [hc, Content.store]

theorem resolve_unregistered (P : Platform) (feed : List GoString) (f : Field)
    (h : registers f = none) : resolve P feed f = f := by
  unfold resolve
  rw [h]

theorem getLast?_of_all_eq (l : List GoString) (x : GoString) (hne : l ≠ [])
    (h : ∀ y ∈ l, y = x) : l.getLast? = some x := by
  rw [List.getLast?_eq_getLast _ hne]
  congr 1
  exact h _ (List.getLast_mem hne)

theorem lastValue_binds (env : List GoString) (K s : GoString) (h : Binds env K s) :
    lastValue K env = some s := by
  obtain ⟨hmem, hk, huniq⟩ := h
  unfold lastValue
  have hin : (K ++ '=' :: s) ∈ env.filter (fun e => decide (envKey e = K)) := by
    rw [List.mem_filter]
    exact ⟨hmem, by simp [envKey_append K s hk]⟩
  rw [getLast?_of_all_eq _ (K ++ '=' :: s) (List.ne_nil_of_mem hin)]
  · simp [envValue_append K s hk]
  · intro y hy
    rw [List.mem_filter] at hy
    exact huniq y hy.1 (by simpa using hy.2)

theorem lastValue_unset (env : List GoString) (K : GoString)
    (h : ∀ e ∈ env, envKey e ≠ K) : lastValue K env = none := by
  have := lastValue_append_right K [] env h
  simpa [lastValue_nil] using this

theorem lastValue_append_cons (K : GoString) (a b : List GoString) (e : GoString)
    (he : envKey e = K) (hb : ∀ x ∈ b, envKey x ≠ K) :
    lastValue K (a ++ e :: b) = some (envValue e) := by
  have : a ++ e :: b = (a ++ [e]) ++ b := by simp
  rw [this, lastValue_append_right K _ b hb, lastValue_append_one, if_pos he]

theorem getElem?_map_resolve (P : Platform) (feed : List GoString) (fields : List Field)
    (p : Nat) (f : Field) (hf : fields[p]? = some f) :
    (fields.map (resolve P feed))[p]? = some (resolve P feed f) := by
  simp [List.getElem?_map, hf]

theorem defaultLiteral_absent (f : Field) (h : f.sf.Tag.lookup "default".toList = none) :
    defaultLiteral f = [] := by
  unfold defaultLiteral getFlagNameAndDefault StructTag.Get
  simp only
  rw [h]

/-! ## C1 -/

/-- C1, as stated, fails: the struct has one eligible field `X int` with the flag tag
`-K`, the environment binds `-K` to the valid literal `5`, and the call panics in
flag.Var with the field holding 0, not 5. -/
theorem env_value_lost_for_minus_name :
    eligible (exportedField "X" "-K" "" (.scalar (.int 7))) = true ∧
    Binds ["-K=5".toList] (externalName (exportedField "X" "-K" "" (.scalar (.int 7))))
      "5".toList ∧
    flagSet amd64 .Int "5".toList = (.int 5, false) ∧
    ReadStructFromEnv amd64 ["-K=5".toList]
        (ptrToStruct [exportedField "X" "-K" "" (.scalar (.int 7))]) =
      .panicked (.flagBeginsWithMinus "-K".toList)
        (ptrToStruct [exportedField "X" "-K" "" (.scalar (.int 0))]) := by
  decide

/-- C1, amended: when the environment binds the external name of an eligible field `f`
to a literal `s`, every call of ReadStructFromEnv that returns nil leaves in `f` the
value that the method Set of the flag package converts `s` to, with or without a
default tag; and under the preconditions of the call (`Wellformed`) the call does
return nil, with `s` valid for the type of `f`. -/
theorem env_value_converted (P : Platform) (env : List GoString) (fields : List Field)
    (p : Nat) (f : Field) (v0 : Scalar) (s : GoString)
    (hf : fields[p]? = some f) (hel : eligible f = true) (hc : f.content = .scalar v0)
    (hbind : Binds env (externalName f) s) :
    (∀ v1, ReadStructFromEnv P env (ptrToStruct fields) = .returned none v1 →
      ∃ fields1, v1 = ptrToStruct fields1 ∧
        fields1[p]? = some ⟨f.sf, .scalar (flagSet P v0.type s).1⟩) ∧
    (Wellformed P env fields →
      ∃ fields1,
        ReadStructFromEnv P env (ptrToStruct fields) =
          .returned none (ptrToStruct fields1) ∧
        fields1[p]? = some ⟨f.sf, .scalar (flagSet P v0.type s).1⟩ ∧
        (flagSet P v0.type s).2 = false) := by
  have hval : (fields.map (resolve P env))[p]? =
      some ⟨f.sf, .scalar (flagSet P v0.type s).1⟩ := by
    rw [getElem?_map_resolve P env fields p f hf, resolve_eligible P env f v0 hel hc,
      lastValue_binds env _ s hbind]
  refine ⟨fun v1 h => ⟨_, ReadStructFromEnv_returned P env fields v1 h, hval⟩, ?_⟩
  intro hwf
  refine ⟨_, ReadStructFromEnv_wellformed P env fields hwf, hval, ?_⟩
  have hm : f ∈ fields := List.mem_iff_getElem?.2 ⟨p, hf⟩
  have := hwf.valid _ hbind.1 f hm hel (envKey_append _ s hbind.2.1)
  rw [envValue_append _ s hbind.2.1] at this
  simpa [validFor, hc] using this

/-- C1, amended, at `UI uint` with flag tag `TEST_UINT` under `TEST_UINT=0xf`: the
field holds 15. -/
theorem env_value_converted_witness :
    Wellformed amd64 ["TEST_UINT=0xf".toList]
      [exportedField "UI" "TEST_UINT" "" (.scalar (.uint 0))] ∧
    ∃ fields1,
      ReadStructFromEnv amd64 ["TEST_UINT=0xf".toList]
        (ptrToStruct [exportedField "UI" "TEST_UINT" "" (.scalar (.uint 0))]) =
        .returned none (ptrToStruct fields1) ∧
      fields1[0]? = some ⟨(exportedField "UI" "TEST_UINT" "" (.scalar (.uint 0))).sf,
        .scalar (.uint 15)⟩ ∧
      (flagSet amd64 .Uint "0xf".toList).2 = false :=
  ⟨⟨by decide, by decide, by decide, by decide, by decide, by decide⟩,
   (env_value_converted amd64 ["TEST_UINT=0xf".toList]
    [exportedField "UI" "TEST_UINT" "" (.scalar (.uint 0))] 0 _ (.uint 0) "0xf".toList
    rfl (by decide) rfl (by decide)).2
    ⟨by decide, by decide, by decide, by decide, by decide, by decide⟩⟩

/-! ## C2 -/

/-- C2, at a non-nil pointer to an int: isPointerToStruct returns true, and both entry
points panic in reflect.Value.NumField instead of returning ErrNotPointerToStruct.
(The check applies reflect.ValueOf to the reflect.Value `rv.Elem()`, whose kind is
always Struct.) -/
theorem isPointerToStruct_accepts_pointer_to_int (P : Platform) (env osArgs : List GoString)
    (prog : GoString) (n : Nat) :
    isPointerToStruct (.val (.ptr (.basic .Int n))) = true ∧
    ReadStructFromEnv P env (.val (.ptr (.basic .Int n))) =
      .panicked .reflectNumField (.val (.ptr (.basic .Int n))) ∧
    ReadStructFromEnvOverrideWithArgs P env (prog :: osArgs) (.val (.ptr (.basic .Int n))) =
      .panicked .reflectNumField (.val (.ptr (.basic .Int n))) := by
  refine ⟨rfl, rfl, rfl⟩

/-- For an argument that is not a pointer, or is a nil pointer, both entry points return
ErrNotPointerToStruct and leave the argument as it is. -/
theorem not_pointer_rejected (P : Platform) (env osArgs : List GoString) (v : Any)
    (h : (ValueOf v).Kind ≠ .Ptr ∨ (ValueOf v).IsNil = true) :
    isPointerToStruct v = false ∧
    ReadStructFromEnv P env v = .returned (some .ErrNotPointerToStruct) v ∧
    ReadStructFromEnvOverrideWithArgs P env osArgs v =
      .returned (some .ErrNotPointerToStruct) v := by
  have h1 : isPointerToStruct v = false := by
    unfold isPointerToStruct
    simp only [h, if_true]
  simp [ReadStructFromEnv, ReadStructFromEnvOverrideWithArgs, h1]

/-- Function isPointerToStruct returns true exactly on the non-nil pointers, whatever
they point to. -/
theorem isPointerToStruct_iff (v : Any) :
    isPointerToStruct v = true ↔ ∃ t, v = .val (.ptr t) := by
  constructor
  · intro h
    cases v with
    | nil => simp [isPointerToStruct, ValueOf, RValue.Kind] at h
    | reflectValue rv => simp [isPointerToStruct, ValueOf, RValue.Kind] at h
    | val g =>
      cases g with
      | basic k r => simp [isPointerToStruct, ValueOf, RValue.Kind] at h
      | struct fs => simp [isPointerToStruct, ValueOf, RValue.Kind] at h
      | nilPtr => simp [isPointerToStruct, ValueOf, RValue.Kind, RValue.IsNil] at h
      | ptr t => exact ⟨t, rfl⟩
  · rintro ⟨t, rfl⟩
    rfl

/-! ## C8 -/

/-- C8: the arguments of os.Args[1:] that begin with `-test.` do not affect the call:
the outcome is the outcome with those arguments removed, and the tokens parsed are the
tokens of the environment followed, in order, by the arguments that do not begin with
`-test.`. -/
theorem test_arguments_ignored (P : Platform) (env : List GoString) (prog : GoString)
    (osArgs1 : List GoString) (v : Any) :
    ReadStructFromEnvOverrideWithArgs P env (prog :: osArgs1) v =
      ReadStructFromEnvOverrideWithArgs P env
        (prog :: osArgs1.filter (fun a => !testMark.isPrefixOf a)) v ∧
    ∀ args, appendArgs args osArgs1 =
      args ++ osArgs1.filter (fun a => !testMark.isPrefixOf a) := by
  have hidem : passedArgs (passedArgs osArgs1) = passedArgs osArgs1 := by
    unfold passedArgs
    rw [List.filter_filter]
    simp
  constructor
  · unfold ReadStructFromEnvOverrideWithArgs
    simp only [appendArgs_eq]
    have : passedArgs (List.filter (fun a => !testMark.isPrefixOf a) osArgs1) =
        passedArgs osArgs1 := hidem
    rw [this]
  · intro args
    exact appendArgs_eq args osArgs1

/-! ## C9 -/

/-- C9: for every flag set and every environment whose entries have the form `K=V`,
getArgsFromEnv returns, in the order of the environment, the token `-K=V` of each entry
whose key `K` (the text before the first `=`) is equal to the name of a registered flag,
and nothing for any other entry; removing an entry whose key is no registered name
changes neither the tokens nor the outcome of ReadStructFromEnv. -/
theorem getArgsFromEnv_tokens (P : Platform) (fs : FlagSet) (env : List GoString)
    (henv : ∀ e ∈ env, '=' ∈ e) :
    getArgsFromEnv fs env =
      some ((env.filter (fun e => decide (envKey e ∈ fs.formal.map Flag.Name))).map
        (fun e => '-' :: e)) ∧
    (∀ env1 env2 e, env = env1 ++ e :: env2 → envKey e ∉ fs.formal.map Flag.Name →
      getArgsFromEnv fs (env1 ++ env2) = getArgsFromEnv fs env) ∧
    (∀ env1 env2 e v tmpfs mem, env = env1 ++ e :: env2 →
      setupFlagsForStruct P NewFlagSet v = .ok (tmpfs, mem) →
      envKey e ∉ tmpfs.formal.map Flag.Name →
      ReadStructFromEnv P (env1 ++ env2) v = ReadStructFromEnv P env v) := by
  have hfeed : ∀ (fs : FlagSet) (l : List GoString), envFeed fs l =
      l.filter (fun e => decide (envKey e ∈ fs.formal.map Flag.Name)) := by
    intro fs l
    unfold envFeed
    apply List.filter_congr
    intro e _
    by_cases h : envKey e ∈ fs.formal.map Flag.Name
    · rw [(Lookup_isSome_iff fs (envKey e)).2 h]; simp [h]
    · have : (fs.Lookup (envKey e)).isSome = false := by
        cases hh : (fs.Lookup (envKey e)).isSome with
        | false => rfl
        | true => exact absurd ((Lookup_isSome_iff fs (envKey e)).1 hh) h
      rw [this]; simp [h]
  have hdrop : ∀ (fs : FlagSet) env1 env2 e, env = env1 ++ e :: env2 →
      envKey e ∉ fs.formal.map Flag.Name →
      getArgsFromEnv fs (env1 ++ env2) = getArgsFromEnv fs env := by
    intro fs env1 env2 e he hk
    have h1 : ∀ x ∈ env1 ++ env2, '=' ∈ x := by
      intro x hx
      apply henv x
      rw [he]
      rcases List.mem_append.1 hx with hx | hx
      · exact List.mem_append_left _ hx
      · exact List.mem_append_right _ (List.mem_cons_of_mem _ hx)
    rw [(getArgsFromEnv_iff fs env _).2 ⟨henv, rfl⟩,
      (getArgsFromEnv_iff fs (env1 ++ env2) _).2 ⟨h1, rfl⟩]
    rw [hfeed, hfeed, he]
    have hk' : decide (envKey e ∈ fs.formal.map Flag.Name) = false := by simpa using hk
    rw [List.filter_append, List.filter_append, List.filter_cons, hk']
    rfl
  refine ⟨?_, hdrop fs, ?_⟩
  · rw [(getArgsFromEnv_iff fs env _).2 ⟨henv, rfl⟩, hfeed]
  · intro env1 env2 e v tmpfs mem he hs hk
    unfold ReadStructFromEnv
    by_cases hp : isPointerToStruct v = false
    · simp [hp]
    · simp only [hp, if_false, hs]
      rw [hdrop tmpfs env1 env2 e he hk]

/-- C9 at the flag set with the one name `A` and the environment `A=1`, `a=2`, `B=3`:
the tokens are `-A=1` alone. -/
theorem getArgsFromEnv_tokens_witness :
    getArgsFromEnv ⟨[⟨"A".toList, 0, .Int⟩]⟩ ["A=1".toList, "a=2".toList, "B=3".toList] =
      some ["-A=1".toList] :=
  (getArgsFromEnv_tokens amd64 ⟨[⟨"A".toList, 0, .Int⟩]⟩
    ["A=1".toList, "a=2".toList, "B=3".toList] (by decide)).1

/-! ## C4 -/

/-- C4, as stated, fails: `F int` with default tag `42` is eligible, its name is not set
in the empty environment and `42` parses as an int, but the two fields before it share
the flag name `N`: the call panics in flag.Var before reaching `F`, which still holds
7. -/
theorem default_lost_after_redefinition :
    eligible (exportedField "F" "" "42" (.scalar (.int 7))) = true ∧
    flagSet amd64 .Int "42".toList = (.int 42, false) ∧
    ReadStructFromEnv amd64 []
        (ptrToStruct [exportedField "A" "N" "" (.scalar (.int 1)),
          exportedField "B" "N" "" (.scalar (.int 2)),
          exportedField "F" "" "42" (.scalar (.int 7))]) =
      .panicked (.flagRedefined "N".toList)
        (ptrToStruct [exportedField "A" "N" "" (.scalar (.int 0)),
          exportedField "B" "N" "" (.scalar (.int 0)),
          exportedField "F" "" "42" (.scalar (.int 7))]) := by
  decide

/-- A field that is eligible and not named by the environment holds its default after
every call that returns nil, and the call returns nil under its preconditions. -/
theorem unset_field_default (P : Platform) (env : List GoString) (fields : List Field)
    (p : Nat) (f : Field) (v0 : Scalar) (hf : fields[p]? = some f)
    (hel : eligible f = true) (hc : f.content = .scalar v0)
    (hunset : ∀ e ∈ env, envKey e ≠ externalName f) :
    (∀ v1, ReadStructFromEnv P env (ptrToStruct fields) = .returned none v1 →
      ∃ fields1, v1 = ptrToStruct fields1 ∧
        fields1[p]? = some ⟨f.sf, .scalar (defaultValue P v0.type (defaultLiteral f))⟩) ∧
    (Wellformed P env fields →
      ∃ fields1,
        ReadStructFromEnv P env (ptrToStruct fields) =
          .returned none (ptrToStruct fields1) ∧
        fields1[p]? = some ⟨f.sf, .scalar (defaultValue P v0.type (defaultLiteral f))⟩) := by
  have hval : (fields.map (resolve P env))[p]? =
      some ⟨f.sf, .scalar (defaultValue P v0.type (defaultLiteral f))⟩ := by
    rw [getElem?_map_resolve P env fields p f hf, resolve_eligible P env f v0 hel hc,
      lastValue_unset env _ hunset]
  exact ⟨fun v1 h => ⟨_, ReadStructFromEnv_returned P env fields v1 h, hval⟩,
    fun hwf => ⟨_, ReadStructFromEnv_wellformed P env fields hwf, hval⟩⟩

/-- C4, amended: when the external name of an eligible field `f` is the key of no entry
of the environment and the text of its default tag parses as the type of `f`, every
call of ReadStructFromEnv that returns nil leaves in `f` the parsed default, whatever it
held before; and under the preconditions of the call (`Wellformed`) the call does
return nil. -/
theorem default_applied (P : Platform) (env : List GoString) (fields : List Field)
    (p : Nat) (f : Field) (v0 : Scalar) (hf : fields[p]? = some f)
    (hel : eligible f = true) (hc : f.content = .scalar v0)
    (hunset : ∀ e ∈ env, envKey e ≠ externalName f)
    (hparse : (flagSet P v0.type (defaultLiteral f)).2 = false) :
    (∀ v1, ReadStructFromEnv P env (ptrToStruct fields) = .returned none v1 →
      ∃ fields1, v1 = ptrToStruct fields1 ∧
        fields1[p]? = some ⟨f.sf, .scalar (flagSet P v0.type (defaultLiteral f)).1⟩) ∧
    (Wellformed P env fields →
      ∃ fields1,
        ReadStructFromEnv P env (ptrToStruct fields) =
          .returned none (ptrToStruct fields1) ∧
        fields1[p]? = some ⟨f.sf, .scalar (flagSet P v0.type (defaultLiteral f)).1⟩) := by
  have h := unset_field_default P env fields p f v0 hf hel hc hunset
  rw [defaultValue_parsed P _ _ hparse] at h
  exact h

/-- C4, amended, at `UI uint` with default `0xff` and `D time.Duration` with default
`1h2m3s`, under an environment that names neither: `UI` holds 255 (and `D` 1h2m3s). -/
theorem default_applied_witness :
    flagSet amd64 .Duration "1h2m3s".toList = (.duration 3723000000000, false) ∧
    ∃ fields1,
      ReadStructFromEnv amd64 ["HOME=/root".toList]
        (ptrToStruct [exportedField "UI" "DTEST_UINT" "0xff" (.scalar (.uint 9)),
          exportedField "D" "DTEST_DURATION" "1h2m3s" (.scalar (.duration 9))]) =
        .returned none (ptrToStruct fields1) ∧
      fields1[0]? = some ⟨(exportedField "UI" "DTEST_UINT" "0xff" (.scalar (.uint 9))).sf,
        .scalar (.uint 255)⟩ :=
  ⟨by decide,
   (default_applied amd64 ["HOME=/root".toList]
    [exportedField "UI" "DTEST_UINT" "0xff" (.scalar (.uint 9)),
      exportedField "D" "DTEST_DURATION" "1h2m3s" (.scalar (.duration 9))] 0 _ (.uint 9)
    rfl (by decide) rfl (by decide) (by decide)).2
    ⟨by decide, by decide, by decide, by decide, by decide, by decide⟩⟩

/-! ## C5 -/

/-- C5, as stated, fails: `I int64` with default tag `9223372036854775808` is
eligible, its name is not set in the empty environment, and strconv.ParseInt reports
ErrRange on the default; the call returns nil and the field holds 9223372036854775807,
the value ParseInt returns with that error, not 0. -/
theorem range_default_saturates :
    eligible (exportedField "I" "" "9223372036854775808" (.scalar (.int64 7))) = true ∧
    ParseInt amd64 "9223372036854775808".toList 0 64 =
      (9223372036854775807, some .ErrRange) ∧
    (flagSet amd64 .Int64 "9223372036854775808".toList).2 = true ∧
    ReadStructFromEnv amd64 []
        (ptrToStruct [exportedField "I" "" "9223372036854775808" (.scalar (.int64 7))]) =
      .returned none (ptrToStruct
        [exportedField "I" "" "9223372036854775808"
          (.scalar (.int64 9223372036854775807))]) ∧
    Scalar.int64 9223372036854775807 ≠ zeroValue .Int64 := by
  decide

/-- C5, amended: when the external name of an eligible field `f` is the key of no entry
of the environment and the text of its default tag is malformed for the type of `f`
(the parser reports a syntax error; for bool and duration, any error), every call of
ReadStructFromEnv that returns nil leaves in `f` the zero value of its type; and under
the preconditions of the call (`Wellformed`), which do not constrain the default, the
call does return nil. -/
theorem malformed_default_zero (P : Platform) (env : List GoString) (fields : List Field)
    (p : Nat) (f : Field) (v0 : Scalar) (hf : fields[p]? = some f)
    (hel : eligible f = true) (hc : f.content = .scalar v0)
    (hunset : ∀ e ∈ env, envKey e ≠ externalName f)
    (hbad : SyntaxFailure P v0.type (defaultLiteral f)) :
    (∀ v1, ReadStructFromEnv P env (ptrToStruct fields) = .returned none v1 →
      ∃ fields1, v1 = ptrToStruct fields1 ∧
        fields1[p]? = some ⟨f.sf, .scalar (zeroValue v0.type)⟩) ∧
    (Wellformed P env fields →
      ∃ fields1,
        ReadStructFromEnv P env (ptrToStruct fields) =
          .returned none (ptrToStruct fields1) ∧
        fields1[p]? = some ⟨f.sf, .scalar (zeroValue v0.type)⟩) := by
  have h := unset_field_default P env fields p f v0 hf hel hc hunset
  rw [defaultValue_malformed P _ _ hbad] at h
  exact h

/-- C5, amended, at `I int64` with the default tag `12abc`: the field holds 0. -/
theorem malformed_default_zero_witness :
    (ParseInt amd64 "12abc".toList 0 64).2 = some .ErrSyntax ∧
    ∃ fields1,
      ReadStructFromEnv amd64 []
        (ptrToStruct [exportedField "I" "" "12abc" (.scalar (.int64 7))]) =
        .returned none (ptrToStruct fields1) ∧
      fields1[0]? = some ⟨(exportedField "I" "" "12abc" (.scalar (.int64 7))).sf,
        .scalar (.int64 0)⟩ :=
  ⟨by decide,
   (malformed_default_zero amd64 [] [exportedField "I" "" "12abc" (.scalar (.int64 7))]
    0 _ (.int64 7) rfl (by decide) rfl (by decide)
    (by show (ParseInt amd64 "12abc".toList 0 64).2 = some .ErrSyntax; decide)).2
    ⟨by decide, by decide, by decide, by decide, by decide, by decide⟩⟩

/-! ## C6 -/

/-- C6, as stated, fails: `F int` has no default tag and its name is not set in the
empty environment, but the two fields before it share the flag name `N`: the call
panics in flag.Var before reaching `F`, which still holds 7, not 0. -/
theorem zero_lost_after_redefinition :
    eligible (exportedField "F" "" "" (.scalar (.int 7))) = true ∧
    (exportedField "F" "" "" (.scalar (.int 7))).sf.Tag.lookup "default".toList = none ∧
    ReadStructFromEnv amd64 []
        (ptrToStruct [exportedField "A" "N" "" (.scalar (.int 1)),
          exportedField "B" "N" "" (.scalar (.int 2)),
          exportedField "F" "" "" (.scalar (.int 7))]) =
      .panicked (.flagRedefined "N".toList)
        (ptrToStruct [exportedField "A" "N" "" (.scalar (.int 0)),
          exportedField "B" "N" "" (.scalar (.int 0)),
          exportedField "F" "" "" (.scalar (.int 7))]) := by
  decide

/-- C6, amended: when an eligible field `f` has no default tag and its external name is
the key of no entry of the environment, every call of ReadStructFromEnv that returns
nil leaves in `f` the zero value of its type, whatever it held before; and under the
preconditions of the call (`Wellformed`) the call does return nil. -/
theorem no_default_zero (P : Platform) (env : List GoString) (fields : List Field)
    (p : Nat) (f : Field) (v0 : Scalar) (hf : fields[p]? = some f)
    (hel : eligible f = true) (hc : f.content = .scalar v0)
    (hunset : ∀ e ∈ env, envKey e ≠ externalName f)
    (hnotag : f.sf.Tag.lookup "default".toList = none) :
    (∀ v1, ReadStructFromEnv P env (ptrToStruct fields) = .returned none v1 →
      ∃ fields1, v1 = ptrToStruct fields1 ∧
        fields1[p]? = some ⟨f.sf, .scalar (zeroValue v0.type)⟩) ∧
    (Wellformed P env fields →
      ∃ fields1,
        ReadStructFromEnv P env (ptrToStruct fields) =
          .returned none (ptrToStruct fields1) ∧
        fields1[p]? = some ⟨f.sf, .scalar (zeroValue v0.type)⟩) := by
  have h := unset_field_default P env fields p f v0 hf hel hc hunset
  rw [defaultLiteral_absent f hnotag, defaultValue_nil] at h
  exact h

/-- C6, amended, at `S string` holding `old`, without tags, under an environment that
does not name it: the field holds the empty string. -/
theorem no_default_zero_witness :
    ∃ fields1,
      ReadStructFromEnv amd64 ["HOME=/root".toList]
        (ptrToStruct [exportedField "S" "" "" (.scalar (.string "old".toList))]) =
        .returned none (ptrToStruct fields1) ∧
      fields1[0]? = some ⟨(exportedField "S" "" "" (.scalar (.string "old".toList))).sf,
        .scalar (.string [])⟩ :=
  (no_default_zero amd64 ["HOME=/root".toList]
    [exportedField "S" "" "" (.scalar (.string "old".toList))] 0 _ (.string "old".toList)
    rfl (by decide) rfl (by decide) (by decide)).2
    ⟨by decide, by decide, by decide, by decide, by decide, by decide⟩

/-! ## C7 -/

/-- C7, at the exported field `X interface{}` holding `int64(5)`: the field is not
eligible, yet setupFlagsForStruct registers the flag `X` of type int64 at its address
and writes the default 0 over its storage; the call returns nil with the storage of
the field overwritten. -/
theorem interface_field_overwritten (P : Platform) :
    eligible (exportedField "X" "" "" (.iface (some (.scalar (.int64 5))))) = false ∧
    setupFlagsForStruct P NewFlagSet
        (ptrToStruct [exportedField "X" "" "" (.iface (some (.scalar (.int64 5))))]) =
      .ok (⟨[⟨"X".toList, 0, .Int64⟩]⟩,
        [exportedField "X" "" "" (.overwritten (.int64 0))]) ∧
    ReadStructFromEnv P []
        (ptrToStruct [exportedField "X" "" "" (.iface (some (.scalar (.int64 5))))]) =
      .returned none (ptrToStruct [exportedField "X" "" "" (.overwritten (.int64 0))]) := by
  refine ⟨rfl, rfl, rfl⟩

/-- A field for which no flag is registered (an unexported field, a field of another
type that is not an interface, an interface-typed field that is nil or holds a value
of another type) is the same after a call that returns nil as before. -/
theorem unregistered_field_unchanged (P : Platform) (env : List GoString)
    (fields : List Field) (v1 : Any) (p : Nat) (f : Field)
    (hret : ReadStructFromEnv P env (ptrToStruct fields) = .returned none v1)
    (hf : fields[p]? = some f) (hreg : registers f = none) :
    ∃ fields1, v1 = ptrToStruct fields1 ∧ fields1[p]? = some f := by
  refine ⟨_, ReadStructFromEnv_returned P env fields v1 hret, ?_⟩
  rw [getElem?_map_resolve P env fields p f hf, resolve_unregistered P env f hreg]

/-! ## C10 -/

/-- C10, at the struct with the exported fields `X interface{}` holding `true` and
`Y bool` with the flag tag `X`, under the empty environment: `Y` is the only eligible
field, its external name `X` does not begin with `-` and holds no `=`, yet the call
panics with `flag redefined: X`, the flag `X` being registered for the interface-typed
field first. -/
theorem interface_field_redefinition (P : Platform) :
    [exportedField "X" "" "" (.iface (some (.scalar (.bool true)))),
      exportedField "Y" "X" "" (.scalar (.bool true))].filter eligible =
      [exportedField "Y" "X" "" (.scalar (.bool true))] ∧
    GoodName (externalName (exportedField "Y" "X" "" (.scalar (.bool true)))) ∧
    ReadStructFromEnv P []
        (ptrToStruct [exportedField "X" "" "" (.iface (some (.scalar (.bool true)))),
          exportedField "Y" "X" "" (.scalar (.bool true))]) =
      .panicked (.flagRedefined "X".toList)
        (ptrToStruct [exportedField "X" "" "" (.overwritten (.bool false)),
          exportedField "Y" "X" "" (.scalar (.bool false))]) := by
  refine ⟨by decide, by decide, ?_⟩
  rfl

/-! ## Lemmas: fuel -/

theorem parseOne_seen_shorter (P : Platform) (fs : FlagSet) (mem mem1 : List Field)
    (args rest : List GoString) (h : parseOne P fs mem args = .seen mem1 rest) :
    rest.length < args.length := by
  cases args with
  | nil => simp [parseOne] at h
  | cons s rest0 =>
    simp only [List.length_cons]
    cases s with
    | nil => simp [parseOne] at h
    | cons s0 t =>
      cases t with
      | nil => simp [parseOne] at h
      | cons s1 s2 =>
        unfold parseOne at h
        simp only at h
        by_cases h0 : s0 ≠ '-'
        · rw [if_pos h0] at h; cases h
        · rw [if_neg h0] at h
          by_cases h1 : s1 = '-' ∧ s2 = []
          · rw [if_pos h1] at h; cases h
          · rw [if_neg h1] at h
            generalize (if s1 = '-' then s2 else s1 :: s2) = name0 at h
            by_cases h2 : name0 = [] ∨ name0.head? = some '-' ∨ name0.head? = some '='
            · rw [if_pos h2] at h; cases h
            · rw [if_neg h2] at h
              generalize splitNameValue name0 = nv at h
              cases hl : fs.Lookup nv.1 with
              | none =>
                rw [hl] at h
                simp only at h
                split at h <;> cases h
              | some fl =>
                rw [hl] at h
                simp only at h
                repeat' split at h
                all_goals first
                  | (simp only [ParseOne.seen.injEq] at h
                     obtain ⟨-, rfl⟩ := h
                     try simp only [List.length_cons]
                     omega)
                  | cases h

/-- The rounds that Parse allows are enough: with any larger number of rounds the loop
of Parse ends the same way. -/
theorem parseLoop_fuel (P : Platform) (fs : FlagSet) (n m : Nat) (mem : List Field)
    (args : List GoString) (hn : args.length < n) (hm : args.length < m) :
    parseLoop P fs n mem args = parseLoop P fs m mem args := by
  induction n generalizing m mem args with
  | zero => omega
  | succ n ih =>
    cases m with
    | zero => omega
    | succ m =>
      rw [parseLoop, parseLoop]
      cases hp : parseOne P fs mem args with
      | seen mem1 rest =>
        have := parseOne_seen_shorter P fs mem mem1 args rest hp
        exact ih m mem1 rest (by omega) (by omega)
      | stop mem1 => rfl
      | help => rfl
      | fail => rfl

theorem leadingInt_length (s : GoString) (x v : Nat) (s1 : GoString)
    (h : leadingInt s x = some (v, s1)) : s1.length ≤ s.length := by
  induction s generalizing x with
  | nil =>
    simp only [leadingInt, Option.some.injEq, Prod.mk.injEq] at h
    rw [← h.2]
  | cons c cs ih =>
    rw [leadingInt] at h
    split at h
    · simp only [Option.some.injEq, Prod.mk.injEq] at h
      rw [← h.2]
    · split at h
      · cases h
      · simp only at h
        split at h
        · cases h
        · have := ih _ h
          simp only [List.length_cons]
          omega

theorem leadingFraction_length (s : GoString) (x k : Nat) (o : Bool) :
    (leadingFraction s x k o).2.2.length ≤ s.length := by
  induction s generalizing x k o with
  | nil => simp [leadingFraction]
  | cons c cs ih =>
    rw [leadingFraction]
    split
    · simp
    · split
      · have := ih x k o
        simp only [List.length_cons]; omega
      · split
        · have := ih x k true
          simp only [List.length_cons]; omega
        · simp only
          split
          · have := ih x k true
            simp only [List.length_cons]; omega
          · have := ih (x * 10 + c.toNat - '0'.toNat) (k + 1) o
            simp only [List.length_cons]; omega

theorem dropWhile_shorter (p : Char → Bool) (s : GoString) (h : s.takeWhile p ≠ []) :
    (s.dropWhile p).length < s.length := by
  cases s with
  | nil => simp at h
  | cons c cs =>
    by_cases hc : p c = true
    · have := (List.dropWhile_suffix p (l := cs)).length_le
      simp only [List.dropWhile_cons, hc, if_true, List.length_cons]
      omega
    · simp [List.takeWhile, hc] at h

/-- Every round of the loop of time.ParseDuration consumes text. -/
theorem durationRound_shorter (P : Platform) (c : Char) (cs : GoString) (d : Nat)
    (s4 : GoString) (d1 : Nat) (h : durationRound P c cs d = some (s4, d1)) :
    s4.length < (c :: cs).length := by
  unfold durationRound at h
  simp only at h
  split at h
  · cases h
  · cases hli : leadingInt (c :: cs) 0 with
    | none => rw [hli] at h; cases h
    | some r =>
      obtain ⟨v, s1⟩ := r
      rw [hli] at h
      simp only at h
      have h1 := leadingInt_length _ _ _ _ hli
      have h4 : (fractionPart s1).2.2.1.length ≤ s1.length := by
        unfold fractionPart
        split
        · rename_i s2
          have := leadingFraction_length s2 0 0 false
          simp only [List.length_cons]
          omega
        · exact Nat.le_refl _
      generalize fractionPart s1 = fr at h h4
      split at h
      · cases h
      · split at h
        · cases h
        · rename_i hu
          have h5 := dropWhile_shorter _ _ hu
          repeat' split at h
          all_goals first
            | (simp only [Option.some.injEq, Prod.mk.injEq] at h
               obtain ⟨rfl, -⟩ := h
               omega)
            | cases h

/-- The rounds that time.ParseDuration allows are enough: with any larger number of
rounds its loop ends the same way. -/
theorem durationLoop_fuel (P : Platform) (n m : Nat) (s : GoString) (d : Nat)
    (hn : s.length ≤ n) (hm : s.length ≤ m) :
    durationLoop P n s d = durationLoop P m s d := by
  induction n generalizing m s d with
  | zero =>
    cases s with
    | nil => cases m <;> rfl
    | cons c cs => simp at hn
  | succ n ih =>
    cases s with
    | nil => cases m <;> rfl
    | cons c cs =>
      cases m with
      | zero => simp at hm
      | succ m =>
        rw [durationLoop, durationLoop]
        cases hr : durationRound P c cs d with
        | none => rfl
        | some r =>
          obtain ⟨s4, d1⟩ := r
          have := durationRound_shorter P c cs d s4 d1 hr
          simp only [List.length_cons] at this hn hm
          exact ih m s4 d1 (by omega) (by omega)

/-! ## Lemmas: the flags that Parse reads from arguments -/

theorem splitNameValue_name (c : Char) (cs : GoString) (hc : c ≠ '=') :
    '=' ∉ (splitNameValue (c :: cs)).1 ∧ (splitNameValue (c :: cs)).1 ≠ [] := by
  unfold splitNameValue
  simp only
  split
  · rename_i hd
    refine ⟨?_, List.cons_ne_nil _ _⟩
    intro hm
    rcases List.mem_cons.1 hm with h | h
    · exact hc h.symm
    · have := (List.dropWhile_eq_nil_iff.1 hd) _ h
      simp [notEq] at this
  · refine ⟨?_, List.cons_ne_nil _ _⟩
    intro hm
    rcases List.mem_cons.1 hm with h | h
    · exact hc h.symm
    · have := List.mem_takeWhile_imp h
      simp [notEq] at this

theorem entryStep_of_lookup (P : Platform) (fs : FlagSet) (mem : List Field)
    (name value : GoString) (fl : Flag) (h1 : '=' ∉ name) (h2 : name ≠ [])
    (hl : fs.Lookup name = some fl) :
    entryStep P fs mem (name ++ '=' :: value) =
      if (flagSet P fl.type value).2 = true then none
      else some (storeAt mem fl.ptr (flagSet P fl.type value).1) := by
  unfold entryStep
  rw [envKey_append name value h1, envValue_append name value h1, if_neg h2, hl]

/-- Method parseOne reads a flag exactly where `argEntry` does, and then does what
`entryStep` does with the entry; elsewhere it stops exactly where `endsFlags` holds. -/
theorem parseOne_argEntry (P : Platform) (fs : FlagSet) (mem : List Field)
    (args : List GoString) :
    (∀ e rest, argEntry fs args = some (e, rest) →
      parseOne P fs mem args =
        (match entryStep P fs mem e with
         | some m => ParseOne.seen m rest
         | none => ParseOne.fail)) ∧
    (argEntry fs args = none →
      (endsFlags args = true ∧ parseOne P fs mem args = .stop mem) ∨
      (endsFlags args = false ∧
        (parseOne P fs mem args = .help ∨ parseOne P fs mem args = .fail))) := by
  cases args with
  | nil => simp [argEntry, endsFlags, parseOne]
  | cons s rest0 =>
    cases s with
    | nil => simp [argEntry, endsFlags, parseOne]
    | cons s0 t =>
      cases t with
      | nil => simp [argEntry, endsFlags, parseOne]
      | cons s1 s2 =>
        unfold argEntry parseOne endsFlags
        simp only
        by_cases h0 : s0 ≠ '-'
        · simp [h0]
        · rw [if_neg h0, if_neg h0]
          by_cases h1 : s1 = '-' ∧ s2 = []
          · simp [h1]
          · rw [if_neg h1, if_neg h1]
            have hends : (decide (s0 ≠ '-') || decide (s1 = '-' ∧ s2 = [])) = false := by
              simp [h0, h1]
            rw [hends]
            generalize (if s1 = '-' then s2 else s1 :: s2) = name0
            by_cases h2 : name0 = [] ∨ name0.head? = some '-' ∨ name0.head? = some '='
            · rw [if_pos h2, if_pos h2]; simp
            · rw [if_neg h2, if_neg h2]
              cases name0 with
              | nil => simp at h2
              | cons c cs =>
                have hc : c ≠ '=' := by
                  intro h; apply h2; right; right; simp [h]
                obtain ⟨hn1, hn2⟩ := splitNameValue_name c cs hc
                generalize splitNameValue (c :: cs) = nv at hn1 hn2 ⊢
                obtain ⟨name, ov⟩ := nv
                simp only at hn1 hn2 ⊢
                cases hl : fs.Lookup name with
                | none =>
                  simp only [reduceCtorEq, false_implies, implies_true, true_and,
                    Bool.false_eq_true, false_and, false_or, forall_const]
                  split <;> simp
                | some fl =>
                  simp only
                  cases ov with
                  | some value =>
                    simp only [Option.some.injEq, Prod.mk.injEq, reduceCtorEq, false_implies,
                      and_true]
                    rintro e rest ⟨rfl, rfl⟩
                    rw [entryStep_of_lookup P fs mem name value fl hn1 hn2 hl]
                    by_cases hb : fl.type = .Bool
                    · rw [if_pos hb]
                      rw [← hb]
                      split <;> rfl
                    · rw [if_neg hb]
                      split <;> rfl
                  | none =>
                    by_cases hb : fl.type = .Bool
                    · rw [if_pos hb, if_pos hb]
                      simp only [Option.some.injEq, Prod.mk.injEq, reduceCtorEq, false_implies,
                        and_true]
                      rintro e rest ⟨rfl, rfl⟩
                      rw [entryStep_of_lookup P fs mem name _ fl hn1 hn2 hl, ← hb]
                      split <;> rfl
                    · rw [if_neg hb, if_neg hb]
                      cases rest0 with
                      | nil => simp
                      | cons value rest1 =>
                        simp only [Option.some.injEq, Prod.mk.injEq, reduceCtorEq,
                          false_implies, and_true]
                        rintro e rest ⟨rfl, rfl⟩
                        rw [entryStep_of_lookup P fs mem name value fl hn1 hn2 hl]
                        split <;> rfl

/-- The loop of Parse returns exactly when the flags it reads are all accepted and it
stops reading at the end of the arguments, at an argument that is not a flag, or at
`--`; the memory is then the memory after those flags. -/
theorem parseLoop_readArgs (P : Platform) (fs : FlagSet) (n : Nat) (mem mem1 : List Field)
    (args : List GoString) (hn : args.length ≤ n) :
    parseLoop P fs (n + 1) mem args = .ok mem1 ↔
      runEntries P fs mem (readArgs fs n args).1 = some mem1 ∧
        endsFlags (readArgs fs n args).2 = true := by
  induction n generalizing mem args with
  | zero =>
    have : args = [] := List.eq_nil_of_length_eq_zero (by omega)
    subst this
    simp [parseLoop, parseOne, readArgs, runEntries, endsFlags]
  | succ n ih =>
    obtain ⟨hsome, hnone⟩ := parseOne_argEntry P fs mem args
    rw [parseLoop, readArgs]
    cases ha : argEntry fs args with
    | none =>
      simp only [runEntries]
      rcases hnone ha with ⟨h1, h2⟩ | ⟨h1, h2⟩
      · rw [h2, h1]; simp
      · rw [h1]
        rcases h2 with h2 | h2 <;> rw [h2] <;> simp
    | some r =>
      obtain ⟨e, rest⟩ := r
      have hp := hsome e rest ha
      simp only [runEntries]
      cases hs : entryStep P fs mem e with
      | none =>
        rw [hs] at hp
        rw [hp]; simp
      | some m =>
        rw [hs] at hp
        rw [hp]
        simp only
        have hlt := parseOne_seen_shorter P fs mem m args rest hp
        exact ih m rest (by omega)

theorem runEntries_append (P : Platform) (fs : FlagSet) (a b : List GoString)
    (mem mem1 : List Field) :
    runEntries P fs mem (a ++ b) = some mem1 ↔
      ∃ m, runEntries P fs mem a = some m ∧ runEntries P fs m b = some mem1 := by
  induction a generalizing mem with
  | nil => simp [runEntries]
  | cons e a ih =>
    simp only [List.cons_append, runEntries]
    cases entryStep P fs mem e with
    | none => simp
    | some m0 => exact ih m0

/-- The tokens of a feed of shaped entries, followed by further arguments. -/
theorem parseLoop_entries_append (P : Platform) (fs : FlagSet) (feed : List GoString)
    (hfeed : ∀ e ∈ feed, Shaped e) (n : Nat) (mem mem1 : List Field)
    (args : List GoString) :
    parseLoop P fs (feed.length + (n + 1)) mem (feed.map (fun e => '-' :: e) ++ args) =
        .ok mem1 ↔
      ∃ m, runEntries P fs mem feed = some m ∧ parseLoop P fs (n + 1) m args = .ok mem1 := by
  induction feed generalizing mem with
  | nil => simp [runEntries]
  | cons e feed ih =>
    have he := hfeed e (by simp)
    have hrest : ∀ x ∈ feed, Shaped x := fun x hx => hfeed x (by simp [hx])
    have hlen : (e :: feed).length + (n + 1) = (feed.length + (n + 1)) + 1 := by
      simp only [List.length_cons]; omega
    rw [hlen]
    simp only [List.map_cons, List.cons_append, runEntries]
    rw [parseLoop, parseOne_entry P fs mem e _ he]
    cases hst : entryStep P fs mem e with
    | some m0 =>
      simp only
      exact ih hrest m0
    | none =>
      simp only
      by_cases hh : envKey e ≠ [] ∧ fs.Lookup (envKey e) = none ∧
          (envKey e = "help".toList ∨ envKey e = "h".toList)
      · rw [if_pos hh]; simp
      · rw [if_neg hh]; simp

theorem accepts_iff (P : Platform) (fs : FlagSet) (e : GoString) :
    accepts P fs e = true ↔ Accepted P fs e := by
  unfold accepts Accepted
  cases fs.Lookup (envKey e) with
  | none => simp
  | some fl => simp

theorem lastValue_append_some (K : GoString) (a b : List GoString) (v : GoString)
    (h : lastValue K b = some v) : lastValue K (a ++ b) = some v := by
  unfold lastValue at h ⊢
  rw [List.filter_append, List.getLast?_append]
  cases hb : (b.filter (fun e => decide (envKey e = K))).getLast? with
  | none => rw [hb] at h; simp at h
  | some x => rw [hb] at h; simpa using h

theorem FlagSet.eq_of_formal (fs : FlagSet) (l : List Flag) (h : fs.formal = l) : fs = ⟨l⟩ := by
  cases fs
  simp only at h
  rw [h]

/-- When ReadStructFromEnvOverrideWithArgs returns nil on a pointer to a struct, every
field is resolved from the environment followed by the flags that Parse reads from the
arguments passed on. -/
theorem Override_returned (P : Platform) (env : List GoString) (prog : GoString)
    (osArgs1 : List GoString) (fields : List Field) (v1 : Any)
    (h : ReadStructFromEnvOverrideWithArgs P env (prog :: osArgs1) (ptrToStruct fields) =
      .returned none v1) :
    v1 = ptrToStruct (fields.map
      (resolve P (env ++ argFeed ⟨regsFrom 0 fields⟩ (passedArgs osArgs1)))) := by
  unfold ReadStructFromEnvOverrideWithArgs at h
  rw [isPointerToStruct_ptrToStruct, setupFlagsForStruct_ptrToStruct] at h
  simp only [Bool.true_eq_false, if_false] at h
  cases hs : setupLoop P NewFlagSet 0 fields with
  | error e => simp [hs] at h
  | ok r =>
    obtain ⟨fs, mem⟩ := r
    simp only [hs] at h
    obtain ⟨hl, hmem, hgood⟩ := setup_linked P fields fs mem hs
    have hfs := FlagSet.eq_of_formal fs _ hl.1
    subst hfs
    cases hg : getArgsFromEnv ⟨regsFrom 0 fields⟩ env with
    | none => simp [hg] at h
    | some args =>
      simp only [hg] at h
      obtain ⟨henv, hargs1⟩ := (getArgsFromEnv_iff _ env args).1 hg
      obtain ⟨mem1, hp, -, hv⟩ := finish_returned _ _ _ h
      subst hmem hargs1
      rw [appendArgs_eq] at hp
      unfold FlagSet.Parse at hp
      rw [List.length_append, List.length_map, Nat.add_assoc] at hp
      have hsh := envFeed_shaped ⟨regsFrom 0 fields⟩ env henv hgood
      obtain ⟨m, hm1, hm2⟩ := (parseLoop_entries_append P _ _ hsh _ _ mem1 _).1 hp
      obtain ⟨hm3, -⟩ := (parseLoop_readArgs P _ _ m mem1 _ (Nat.le_refl _)).1 hm2
      have hrun : runEntries P ⟨regsFrom 0 fields⟩ (fields.map (afterSetup P))
          (envFeed ⟨regsFrom 0 fields⟩ env ++
            argFeed ⟨regsFrom 0 fields⟩ (passedArgs osArgs1)) = some mem1 :=
        (runEntries_append P _ _ _ _ mem1).2 ⟨m, hm1, hm3⟩
      have h2 : fields.map (afterSetup P) = fields.map (resolve P []) := by
        apply List.map_congr_left
        intro f _
        rw [resolve_nil]
      rw [h2] at hrun
      have := runEntries_resolve P _ fields hl [] _ mem1 hrun
      rw [hv, this, List.nil_append, resolve_envFeed P _ fields hl env _]

/-- ReadStructFromEnvOverrideWithArgs returns nil under its preconditions, with every
field resolved from the environment followed by the flags that Parse reads from the
arguments passed on. -/
theorem Override_wellformed (P : Platform) (env : List GoString) (prog : GoString)
    (osArgs1 : List GoString) (fields : List Field) (h : Wellformed P env fields)
    (hargs : WellformedArgs P fields osArgs1) :
    ReadStructFromEnvOverrideWithArgs P env (prog :: osArgs1) (ptrToStruct fields) =
      .returned none (ptrToStruct (fields.map
        (resolve P (env ++ argFeed ⟨regsFrom 0 fields⟩ (passedArgs osArgs1))))) := by
  have hs := setupLoop_total P fields NewFlagSet 0 h.regs_good
    (by simpa [NewFlagSet] using h.regs_nodup)
  simp only [NewFlagSet, List.nil_append] at hs
  have hl := h.linked
  have hg := (getArgsFromEnv_iff ⟨regsFrom 0 fields⟩ env _).2 ⟨h.envEq, rfl⟩
  have hsh := envFeed_shaped ⟨regsFrom 0 fields⟩ env h.envEq h.regs_good
  obtain ⟨m, hm⟩ := runEntries_total P ⟨regsFrom 0 fields⟩ _ h.accepted
    (fields.map (afterSetup P))
  obtain ⟨mem1, hm1⟩ := runEntries_total P ⟨regsFrom 0 fields⟩
    (argFeed ⟨regsFrom 0 fields⟩ (passedArgs osArgs1))
    (fun e he => (accepts_iff P _ e).1 (hargs.1 e he)) m
  have hm2 : parseLoop P ⟨regsFrom 0 fields⟩ ((passedArgs osArgs1).length + 1) m
      (passedArgs osArgs1) = .ok mem1 :=
    (parseLoop_readArgs P _ _ m mem1 _ (Nat.le_refl _)).2 ⟨hm1, hargs.2⟩
  have hp : FlagSet.Parse P ⟨regsFrom 0 fields⟩ (fields.map (afterSetup P))
      ((envFeed ⟨regsFrom 0 fields⟩ env).map (fun e => '-' :: e) ++ passedArgs osArgs1) =
      .ok mem1 := by
    unfold FlagSet.Parse
    rw [List.length_append, List.length_map, Nat.add_assoc]
    exact (parseLoop_entries_append P _ _ hsh _ _ mem1 _).2 ⟨m, hm, hm2⟩
  have hrun : runEntries P ⟨regsFrom 0 fields⟩ (fields.map (afterSetup P))
      (envFeed ⟨regsFrom 0 fields⟩ env ++
        argFeed ⟨regsFrom 0 fields⟩ (passedArgs osArgs1)) = some mem1 :=
    (runEntries_append P _ _ _ _ mem1).2 ⟨m, hm, hm1⟩
  have h2 : fields.map (afterSetup P) = fields.map (resolve P []) := by
    apply List.map_congr_left
    intro f _
    rw [resolve_nil]
  rw [h2] at hrun
  have hres := runEntries_resolve P _ fields hl [] _ mem1 hrun
  rw [List.nil_append, resolve_envFeed P _ fields hl env _] at hres
  unfold ReadStructFromEnvOverrideWithArgs
  rw [isPointerToStruct_ptrToStruct, setupFlagsForStruct_ptrToStruct]
  simp only [Bool.true_eq_false, if_false, NewFlagSet, hs, hg, appendArgs_eq, hp, finish]
  rw [hres]
  rfl

/-- The flags that Parse reads from four command lines over a flag set with the int
flag `W` and the bool flag `B`: a trailing positional argument, two dashes, a value in
the next argument and a bool flag in front all leave the flag `W=55` read; a leading
positional argument leaves nothing read. -/
theorem argFeed_forms :
    argFeed ⟨[⟨"B".toList, 0, .Bool⟩, ⟨"W".toList, 1, .Int⟩]⟩
        ["-W=55".toList, "file.txt".toList] = ["W=55".toList] ∧
    argFeed ⟨[⟨"B".toList, 0, .Bool⟩, ⟨"W".toList, 1, .Int⟩]⟩
        ["--W=55".toList] = ["W=55".toList] ∧
    argFeed ⟨[⟨"B".toList, 0, .Bool⟩, ⟨"W".toList, 1, .Int⟩]⟩
        ["-W".toList, "55".toList] = ["W=55".toList] ∧
    argFeed ⟨[⟨"B".toList, 0, .Bool⟩, ⟨"W".toList, 1, .Int⟩]⟩
        ["-B".toList, "-W=55".toList] = ["B=true".toList, "W=55".toList] ∧
    argFeed ⟨[⟨"B".toList, 0, .Bool⟩, ⟨"W".toList, 1, .Int⟩]⟩
        ["x".toList, "-W=55".toList] = [] := by
  decide

/-! ## C3 -/

/-- C3, as stated, fails: `I int` has the flag tag `W`, the environment sets `W=-5`
and os.Args[1:] is `x`, `-W=55`; Parse stops at the first argument that is not a flag,
the call returns nil and the field holds -5 from the environment, not 55. -/
theorem argument_after_positional_ignored :
    eligible (exportedField "I" "W" "10" (.scalar (.int 0))) = true ∧
    "-W=55".toList ∈ ["x".toList, "-W=55".toList] ∧
    flagSet amd64 .Int "55".toList = (.int 55, false) ∧
    ReadStructFromEnvOverrideWithArgs amd64 ["W=-5".toList]
        ["prog".toList, "x".toList, "-W=55".toList]
        (ptrToStruct [exportedField "I" "W" "10" (.scalar (.int 0))]) =
      .returned none (ptrToStruct [exportedField "I" "W" "10" (.scalar (.int (-5)))]) := by
  decide

/-- C3, amended: `argFeed` lists, as entries `N=V`, the flags that Parse reads from the
arguments of os.Args[1:] that do not begin with `-test.`: each is written `-N=V`,
`--N=V`, `-N V`, `--N V`, or `-N`, `--N` for a bool flag, and reading ends at the first
argument that is not a flag, at `--`, or at a name that is not registered. When the last
flag read that names the external name `K` of the eligible field `f` carries the text
`v`, every call of ReadStructFromEnvOverrideWithArgs that returns nil leaves in `f` the
value of `v`, whatever the environment binds `K` to; and under the preconditions of the
call (`Wellformed`, and `WellformedArgs`: every flag read carries a valid literal for
its field, and reading ends at the end of the arguments, at an argument that is not a
flag, or at `--`) the call does return nil. -/
theorem argument_overrides_environment (P : Platform) (env : List GoString)
    (prog : GoString) (osArgs1 : List GoString) (fields : List Field)
    (p : Nat) (f : Field) (v0 : Scalar) (v : GoString)
    (hf : fields[p]? = some f) (hel : eligible f = true) (hc : f.content = .scalar v0)
    (hlast : lastValue (externalName f)
      (argFeed ⟨regsFrom 0 fields⟩ (passedArgs osArgs1)) = some v) :
    (∀ v1, ReadStructFromEnvOverrideWithArgs P env (prog :: osArgs1) (ptrToStruct fields) =
        .returned none v1 →
      ∃ fields1, v1 = ptrToStruct fields1 ∧
        fields1[p]? = some ⟨f.sf, .scalar (flagSet P v0.type v).1⟩) ∧
    (Wellformed P env fields → WellformedArgs P fields osArgs1 →
      ∃ fields1,
        ReadStructFromEnvOverrideWithArgs P env (prog :: osArgs1) (ptrToStruct fields) =
          .returned none (ptrToStruct fields1) ∧
        fields1[p]? = some ⟨f.sf, .scalar (flagSet P v0.type v).1⟩) := by
  have hval : (fields.map (resolve P (env ++
      argFeed ⟨regsFrom 0 fields⟩ (passedArgs osArgs1))))[p]? =
      some ⟨f.sf, .scalar (flagSet P v0.type v).1⟩ := by
    rw [getElem?_map_resolve P _ fields p f hf, resolve_eligible P _ f v0 hel hc,
      lastValue_append_some (externalName f) env _ v hlast]
  exact ⟨fun v1 h => ⟨_, Override_returned P env prog osArgs1 fields v1 h, hval⟩,
    fun hwf hargs => ⟨_, Override_wellformed P env prog osArgs1 fields hwf hargs, hval⟩⟩

/-- C3, amended, at `B bool` and `I int` with flag tag `W` under `W=-5` and the
arguments `-test.v`, `-B`, `--W`, `55`, `file.txt`: the field `I` holds 55. -/
theorem argument_overrides_environment_witness :
    ∃ fields1,
      ReadStructFromEnvOverrideWithArgs amd64 ["W=-5".toList]
        ["prog".toList, "-test.v".toList, "-B".toList, "--W".toList, "55".toList,
          "file.txt".toList]
        (ptrToStruct [exportedField "B" "" "" (.scalar (.bool false)),
          exportedField "I" "W" "10" (.scalar (.int 0))]) =
        .returned none (ptrToStruct fields1) ∧
      fields1[1]? = some ⟨(exportedField "I" "W" "10" (.scalar (.int 0))).sf,
        .scalar (.int 55)⟩ :=
  (argument_overrides_environment amd64 ["W=-5".toList] "prog".toList
    ["-test.v".toList, "-B".toList, "--W".toList, "55".toList, "file.txt".toList]
    [exportedField "B" "" "" (.scalar (.bool false)),
      exportedField "I" "W" "10" (.scalar (.int 0))]
    1 _ (.int 0) "55".toList rfl (by decide) rfl (by decide)).2
    ⟨by decide, by decide, by decide, by decide, by decide, by decide⟩ (by decide)

end Config
